import Mathlib

/-!
Verification development for the candidate recommendation engine
(`engine/recommender.py`, `engine/summarizer.py`, `engine/parser.py`).

Modelling conventions:
* Python strings are modelled as Lean `String`s and all text operations are
  implemented character by character over `String.data` (ASCII model of
  `str.lower`, `str.strip`, and the regular expressions of `clean_text`).
* Similarity scores (Python floats) are modelled as rationals `ℚ`; the
  comparisons performed by the code (`>=`, `>`, sorting) are order
  comparisons on `ℚ`, and Python `round(x, 4)` and the `.3f` format are
  modelled by round-half-to-even on `ℚ`.
* The SHA-256 digest of `generate_content_hash` is modelled by the
  normalized text itself: the spec treats hash collisions as negligible,
  so digesting is taken to be injective and the digest of a text is the
  normalized text.  The digest of empty or missing text is the digest of
  the empty string, exactly as in the code.
* A Python candidate dict is modelled by a structure whose `id`, `name`,
  `email` and `text` fields are `Option String`: `none` means the key is
  missing from the dict.  A key that is present with value `None` behaves
  in all code paths touched here exactly like the empty string (both are
  falsy), so present values are plain strings.
* `detect_duplicates` returns `Option (...)`: `none` models the `KeyError`
  that the Python code raises when it builds a duplicate record for a
  candidate whose dict has no `id` key (field access
  `valid_candidates[idx]["id"]`); all other paths are total.
-/

namespace CandidateRec

/-! ### ASCII models of the Python string primitives -/

/-- Model of Python `str.lower` (ASCII: only `A`-`Z` are mapped). -/
def pyLower (s : String) : String := String.mk (s.data.map Char.toLower)

/-- Model of Python `str.strip`: drop whitespace from both ends. -/
def pyStrip (s : String) : String :=
  String.mk (((s.data.dropWhile Char.isWhitespace).reverse.dropWhile
    Char.isWhitespace).reverse)

/-- Model of `re.sub(r'\s+', ' ', text)`: collapse every run of whitespace
characters into a single space. -/
def collapseWs : List Char → List Char
  | [] => []
  | c :: rest =>
    match rest with
    | [] => if c.isWhitespace then [' '] else [c]
    | c2 :: rest2 =>
      if c.isWhitespace && c2.isWhitespace then collapseWs (c2 :: rest2)
      else (if c.isWhitespace then ' ' else c) :: collapseWs (c2 :: rest2)

/-- The punctuation whitelist of `clean_text`
(`[^\w\s\.\,\!\?\-\+\=\&\|\:\;\(\)\[\]\x7b\x7d]` is removed). -/
def punctWhitelist : List Char := ".,!?-+=&|:;()[]\x7b\x7d".data

/-- A character kept by the `clean_text` filter: word characters
(alphanumeric or underscore, ASCII model of `\w`), whitespace, or one of
the whitelisted punctuation characters. -/
def keepChar (c : Char) : Bool :=
  c.isAlphanum || c = '_' || c.isWhitespace || punctWhitelist.contains c

/-- Model of `engine/parser.py::clean_text`: collapse whitespace runs,
remove characters outside the whitelist, trim. -/
def clean_text (text : String) : String :=
  if text = "" then ""
  else pyStrip (String.mk ((collapseWs text.data).filter keepChar))

/-! ### Content hasher (`engine/recommender.py::generate_content_hash`) -/

/-- Model of `generate_content_hash`.  The argument is the value of the
`text` field (`none` models a missing/`None` value).  A falsy text hashes
like the empty string; otherwise the digest of
`clean_text(text).lower().strip()` is produced.  The SHA-256 digest is
modelled by the normalized string itself (collision-free idealization);
the `except` fallback of the code is unreachable in the model. -/
def generate_content_hash (text : Option String) : String :=
  match text with
  | none => ""
  | some t => if t = "" then "" else pyStrip (pyLower (clean_text t))

/-! ### Status classification (`engine/recommender.py::classify_status`) -/

/-- Model of `classify_status`: thresholds are inclusive lower bounds,
exactly as the chained `>=` tests of the code. -/
def classify_status (score : ℚ) : String × String :=
  if score ≥ 0.8 then ("Excellent Match", "status-excellent")
  else if score ≥ 0.6 then ("Good Match", "status-good")
  else if score ≥ 0.4 then ("Fair Match", "status-fair")
  else ("Poor Match", "status-poor")

/-! ### Rounding and formatting of scores -/

/-- Round-half-to-even to the nearest integer, the rounding mode of both
Python `round` and the `.3f` format. -/
def roundHalfEven (x : ℚ) : ℤ :=
  let f := ⌊x⌋
  if x - f < 1/2 then f
  else if x - f > 1/2 then f + 1
  else if Even f then f else f + 1

/-- Model of Python `round(x, 4)`, the rounding applied to the
`Similarity Score` column in `process_candidates`. -/
def roundTo4 (x : ℚ) : ℚ := (roundHalfEven (x * 10000) : ℚ) / 10000

/-- Zero-pad a fractional part to three digits. -/
def pad3 (r : Nat) : String :=
  if r < 10 then "00" ++ toString r
  else if r < 100 then "0" ++ toString r
  else toString r

/-- Model of the Python format `f"{x:.3f}"` used by the summarizer
templates. -/
def fmt3 (x : ℚ) : String :=
  let n : ℤ := roundHalfEven (x * 1000)
  let sign := if n < 0 then "-" else ""
  let m := n.natAbs
  sign ++ toString (m / 1000) ++ "." ++ pad3 (m % 1000)

/-! ### Summarizer (`engine/summarizer.py`) -/

/-- Model of `fallback_summary`.  Note the comparisons are strict (`>`),
unlike the inclusive (`>=`) comparisons of `classify_status`. -/
def fallback_summary (similarity_score : ℚ) : String :=
  if similarity_score > 0.8 then
    "This candidate demonstrates excellent alignment with the job requirements. The high similarity score of "
      ++ fmt3 similarity_score ++ " suggests a strong potential fit."
  else if similarity_score > 0.6 then
    "This candidate shows good alignment with the job requirements, supported by a similarity score of "
      ++ fmt3 similarity_score ++ "."
  else if similarity_score > 0.4 then
    "This candidate has a moderate match for the job, with a similarity score of "
      ++ fmt3 similarity_score ++ " indicating some relevant qualifications."
  else
    "This candidate has limited overlap with the job requirements, as indicated by a low similarity score of "
      ++ fmt3 similarity_score ++ "."

/-- The tier selected by `fallback_summary`, read off from its chained
strict comparisons (3 = excellent wording, 2 = good, 1 = moderate,
0 = limited). -/
def fallback_tier (s : ℚ) : Nat :=
  if s > 0.8 then 3 else if s > 0.6 then 2 else if s > 0.4 then 1 else 0

/-- The four template strings of `fallback_summary`, indexed by tier, with
the formatted score spliced in.  Used to state that the fallback summary
is a function of the tier and the formatted score only. -/
def tier_template (tier : Nat) (formatted : String) : String :=
  if tier = 3 then
    "This candidate demonstrates excellent alignment with the job requirements. The high similarity score of "
      ++ formatted ++ " suggests a strong potential fit."
  else if tier = 2 then
    "This candidate shows good alignment with the job requirements, supported by a similarity score of "
      ++ formatted ++ "."
  else if tier = 1 then
    "This candidate has a moderate match for the job, with a similarity score of "
      ++ formatted ++ " indicating some relevant qualifications."
  else
    "This candidate has limited overlap with the job requirements, as indicated by a low similarity score of "
      ++ formatted ++ "."

/-- Model of `generate_summary`.  The OpenAI backend is modelled by an
optional response: `none` covers a missing `OPENAI_API_KEY` as well as any
exception raised by the API call, both of which the code turns into
`fallback_summary`; `some r` is a successful response, which the code
returns stripped. -/
def generate_summary (backend : Option String) (_job_description _resume_text : String)
    (similarity_score : ℚ) : String :=
  match backend with
  | none => fallback_summary similarity_score
  | some response => pyStrip response

/-! ### Data model -/

/-- A raw candidate dict.  `none` in `id?`, `name?`, `email?`, `text?`
means the corresponding key is missing from the dict (see the modelling
conventions above). -/
structure Candidate where
  id? : Option String
  name? : Option String
  email? : Option String
  phone : String
  text? : Option String
  source : String
deriving Repr, DecidableEq, Inhabited

/-- A duplicate record as appended to `duplicate_info` by
`detect_duplicates`.  All fields are the strings the code stores. -/
structure DupRecord where
  type : String
  candidate_id : String
  name : String
  email : String
  reason : String
deriving Repr, DecidableEq, Inhabited

/-! ### Duplicate detector (`engine/recommender.py::detect_duplicates`) -/

/-- The structural validity filter of `detect_duplicates`: the dict must
have the keys `email`, `name` and `text`.  (The code does not require an
`id` key.) -/
def valid_candidate (c : Candidate) : Bool :=
  c.email?.isSome && c.name?.isSome && c.text?.isSome

/-- The grouping key `email = candidate["email"].lower().strip() if
candidate["email"] else ""`.  A falsy (missing or empty) email gives
`""`, which is also what lower-and-strip produce on it, so the guard is
subsumed. -/
def email_key (c : Candidate) : String := pyStrip (pyLower (c.email?.getD ""))

/-- The grouping key of the content criterion: the content hash of the
`text` value. -/
def content_key (c : Candidate) : String := generate_content_hash c.text?

/-- The grouping key
`f"{candidate['name'].lower().strip() if candidate['name'] else ''}_{email}"`. -/
def name_email_key (c : Candidate) : String :=
  pyStrip (pyLower (c.name?.getD "")) ++ "_" ++ email_key c

/-- The sentinel test of the email criterion: the normalized email must
not be `"no email found"` or `""` for an email group to count. -/
def sentinel_ok (k : String) : Bool := !(k = "no email found" || k = "")

/-- One step of the `defaultdict(list)` grouping: append index `i` to the
entry of key `k`, creating the entry at the end if the key is new. -/
def add_to_groups (gs : List (String × List Nat)) (k : String) (i : Nat) :
    List (String × List Nat) :=
  match gs with
  | [] => [(k, [i])]
  | (k', is) :: rest =>
    if k' = k then (k', is ++ [i]) :: rest else (k', is) :: add_to_groups rest k i

/-- Build the groups from an enumerated list of keys (model of the
`for i, candidate in enumerate(valid_candidates)` grouping loop). -/
def groups_from (ps : List (Nat × String)) : List (String × List Nat) :=
  ps.foldl (fun gs p => add_to_groups gs p.2 p.1) []

/-- The three groupings built over the valid candidates, keyed by the
given key function. -/
def build_groups (key : Candidate → String) (valid : List Candidate) :
    List (String × List Nat) :=
  groups_from (valid.enum.map (fun p => (p.1, key p.2)))

/-- The state threaded through the three marking loops: the set of marked
indices (`duplicates`) and the report list (`duplicate_info`). -/
structure DetState where
  dups : List Nat
  recs : List DupRecord
deriving Repr, DecidableEq, Inhabited

/-- Build one duplicate record.  Fails (models the `KeyError`) when the
reported candidate or the kept candidate has no `id` key. -/
def mk_dup_record (tStr kindWord : String) (valid : List Candidate)
    (keptIdx idx : Nat) : Option DupRecord :=
  match (valid.getD idx default).id?, (valid.getD keptIdx default).id? with
  | some cid, some kid =>
    some ⟨tStr, cid, (valid.getD idx default).name?.getD "",
      (valid.getD idx default).email?.getD "",
      "Duplicate " ++ kindWord ++ " with candidate " ++ kid⟩
  | _, _ => none

/-- Process the members `indices[1:]` of one group: mark and report each,
skipping the ones already marked when `guard` is set (the
`if idx not in duplicates` test, present in the content and name+email
loops but not in the email loop). -/
def process_members (tStr kindWord : String) (guard : Bool)
    (valid : List Candidate) (keptIdx : Nat) :
    List Nat → DetState → Option DetState
  | [], st => some st
  | idx :: rest, st =>
    if guard && st.dups.contains idx then
      process_members tStr kindWord guard valid keptIdx rest st
    else
      match mk_dup_record tStr kindWord valid keptIdx idx with
      | none => none
      | some r =>
        process_members tStr kindWord guard valid keptIdx rest
          ⟨(if st.dups.contains idx then st.dups else idx :: st.dups),
            st.recs ++ [r]⟩

/-- Process all groups of one criterion: only groups with more than one
member and an admissible key (`keyOk`) produce duplicates; the first
member of each group is the kept one. -/
def process_groups (tStr kindWord : String) (guard : Bool)
    (keyOk : String → Bool) (valid : List Candidate) :
    List (String × List Nat) → DetState → Option DetState
  | [], st => some st
  | (k, idxs) :: rest, st =>
    if idxs.length > 1 && keyOk k then
      match process_members tStr kindWord guard valid (idxs.headD 0)
          (idxs.drop 1) st with
      | none => none
      | some st' => process_groups tStr kindWord guard keyOk valid rest st'
    else process_groups tStr kindWord guard keyOk valid rest st

/-- Model of `detect_duplicates`.  Returns `none` exactly when the Python
code would raise a `KeyError` while building a duplicate record (a
reported or kept candidate without an `id` key); otherwise
`some (unique_candidates, duplicate_info)`. -/
def detect_duplicates (candidates : List Candidate) :
    Option (List Candidate × List DupRecord) :=
  if candidates.isEmpty then some ([], [])
  else
    let valid := candidates.filter valid_candidate
    if valid.isEmpty then some ([], [])
    else
      match process_groups "email_duplicate" "email" false sentinel_ok valid
          (build_groups email_key valid) ⟨[], []⟩ with
      | none => none
      | some st1 =>
        match process_groups "content_duplicate" "content" true (fun _ => true)
            valid (build_groups content_key valid) st1 with
        | none => none
        | some st2 =>
          match process_groups "name_email_duplicate" "name+email" true
              (fun _ => true) valid (build_groups name_email_key valid) st2 with
          | none => none
          | some st3 =>
            some ((valid.enum.filter (fun p => !st3.dups.contains p.1)).map
              Prod.snd, st3.recs)

/-! ### Concrete candidates used by witnesses and refutations -/

/-- C2 witness data: two candidates sharing an email. -/
def c2wA : Candidate := ⟨some "A", some "Ann", some "a@a.com", "", some "text a", "file"⟩

/-- C2 witness data: the later candidate with the same email. -/
def c2wB : Candidate := ⟨some "B", some "Ben", some "a@a.com", "", some "text b", "file"⟩

/-- C2 witness data: the record reported for `c2wB`. -/
def c2wR : DupRecord :=
  ⟨"email_duplicate", "B", "Ben", "a@a.com", "Duplicate email with candidate A"⟩

/-- C3 witness data: two candidates sharing an email. -/
def c3wA : Candidate := ⟨some "A", some "Ann", some "a@a.com", "", some "text a", "file"⟩

/-- C3 witness data: the later candidate with the same email. -/
def c3wB : Candidate := ⟨some "B", some "Ben", some "a@a.com", "", some "text b", "file"⟩

/-- C4 witness data: two unrelated candidates. -/
def c4wA : Candidate := ⟨some "A", some "Ann", some "a@a.com", "", some "text a", "file"⟩

/-- C4 witness data: the second unrelated candidate. -/
def c4wB : Candidate := ⟨some "B", some "Ben", some "b@b.com", "", some "text b", "file"⟩

/-- C10 data: first candidate with both extraction-fallback values. -/
def c10A : Candidate :=
  ⟨some "A", some "Unknown Candidate", some "No email found", "", some "alpha text", "file"⟩

/-- C10 data: an unrelated candidate whose text `c10C` shares. -/
def c10B : Candidate :=
  ⟨some "B", some "Other Name", some "b@b.com", "", some "beta text", "file"⟩

/-- C10 data: second fallback-valued candidate, text equal to `c10B`. -/
def c10C : Candidate :=
  ⟨some "C", some "Unknown Candidate", some "No email found", "", some "beta text", "file"⟩

/-- C10 witness data: first fallback-valued candidate. -/
def c10wA : Candidate :=
  ⟨some "A", some "Unknown Candidate", some "No email found", "", some "alpha text", "file"⟩

/-- C10 witness data: second fallback-valued candidate, different text. -/
def c10wB : Candidate :=
  ⟨some "B", some "Unknown Candidate", some "No email found", "", some "beta text", "file"⟩

/-- C8 witness data: a single candidate. -/
def c8w : Candidate := ⟨some "W", some "Wes", some "w@w.com", "", some "text w", "file"⟩

/-- C9 counterexample data: first candidate. -/
def c9cA : Candidate := ⟨some "A", some "Ann", some "a@a.com", "", some "text a", "file"⟩

/-- C9 counterexample data: second candidate. -/
def c9cB : Candidate := ⟨some "B", some "Ben", some "b@b.com", "", some "text b", "file"⟩

/-- C9 witness data: a single candidate. -/
def c9w : Candidate := ⟨some "V", some "Val", some "v@v.com", "", some "text v", "file"⟩

/-! ### Derived descriptions of the detector (used to state theorems) -/

/-- The key of the valid candidate at index `i` under a key function. -/
def key_at (key : Candidate → String) (valid : List Candidate) (i : Nat) : String :=
  key (valid.getD i default)

/-- All indices of valid candidates having key `k`, in increasing order.
This is what each `defaultdict` entry holds after the grouping loop. -/
def group_idxs (key : Candidate → String) (valid : List Candidate) (k : String) :
    List Nat :=
  (List.range valid.length).filter (fun i => key_at key valid i = k)

/-- The lowest index among the valid candidates sharing the key of index
`j`: the group member the code keeps and cites. -/
def first_mate (key : Candidate → String) (valid : List Candidate) (j : Nat) : Nat :=
  (group_idxs key valid (key_at key valid j)).headD 0

/-- Index `j` is caught by the criterion with key function `key` and key
admissibility test `keyOk`: some earlier valid candidate has the same
key (so `j` is a non-first member of a group of size at least two). -/
def caught_by (key : Candidate → String) (keyOk : String → Bool)
    (valid : List Candidate) (j : Nat) : Bool :=
  decide (j < valid.length) && keyOk (key_at key valid j) &&
    ((List.range j).any (fun i => key_at key valid i = key_at key valid j))

/-- Caught by the email criterion (non-sentinel shared email). -/
def caught_email (valid : List Candidate) (j : Nat) : Bool :=
  caught_by email_key sentinel_ok valid j

/-- Caught by the content-hash criterion. -/
def caught_content (valid : List Candidate) (j : Nat) : Bool :=
  caught_by content_key (fun _ => true) valid j

/-- Caught by the name+email criterion. -/
def caught_ne (valid : List Candidate) (j : Nat) : Bool :=
  caught_by name_email_key (fun _ => true) valid j

/-- The first criterion that catches index `j`, in the fixed precedence
email, then content, then name+email. -/
def first_criterion (valid : List Candidate) (j : Nat) : String :=
  if caught_email valid j then "email_duplicate"
  else if caught_content valid j then "content_duplicate"
  else "name_email_duplicate"

/-- Description of one duplicate record produced for the valid candidate
at index `j`: the record is built by the first criterion that catches `j`
(email before content before name+email), and it cites the lowest-index
valid candidate sharing the key of that criterion with `j`. -/
def record_spec (valid : List Candidate) (j : Nat) (r : DupRecord) : Prop :=
  j < valid.length ∧
    ((caught_email valid j = true ∧
        mk_dup_record "email_duplicate" "email" valid
          (first_mate email_key valid j) j = some r) ∨
      (caught_email valid j = false ∧ caught_content valid j = true ∧
        mk_dup_record "content_duplicate" "content" valid
          (first_mate content_key valid j) j = some r) ∨
      (caught_email valid j = false ∧ caught_content valid j = false ∧
        caught_ne valid j = true ∧
        mk_dup_record "name_email_duplicate" "name+email" valid
          (first_mate name_email_key valid j) j = some r))

/-! ### Ranking assembly (`engine/recommender.py::process_candidates`,
steps 6 to 8)

The embedding and scoring steps (4 and 5) call the external embedding
provider; the assembly below therefore takes the similarity scores as an
input list, one raw score per unique candidate, exactly as
`process_candidates` consumes `similarity_scores[i]`.  The pandas call
`sort_values("Similarity Score", ascending=False)` is modelled as a
stable descending sort on the rounded score.  (pandas with the default
`kind='quicksort'` does not promise a tie order; no claim theorem below
asserts anything about the order of tied rows.)  The `except` fallback
around the sort and the final drop of the temporary `text` column are not
modelled (the modelled sort is total, and the `text` field is simply
retained). -/

/-- One row of the result table, with the columns built in step 6. -/
structure Row where
  rank : Nat
  candidate_id : String
  name : String
  email : String
  phone : String
  score : ℚ
  status : String
  status_class : String
  summary : String
  source : String
  text : String
deriving Repr, DecidableEq, Inhabited

/-- Build the row of candidate `c` at pre-sort position `i` with raw
similarity score `score`: the stored `Similarity Score` is
`round(score, 4)` while `Status` is classified from the raw score. -/
def mk_row (i : Nat) (c : Candidate) (score : ℚ) : Row :=
  ⟨i + 1, c.id?.getD "", c.name?.getD "", c.email?.getD "", c.phone,
    roundTo4 score, (classify_status score).1, (classify_status score).2,
    "", c.source, c.text?.getD ""⟩

/-- The descending comparison on the stored (rounded) score used to sort
the rows. -/
def row_le (a b : Row) : Bool := decide (b.score ≤ a.score)

/-- Step 6: build one row per unique candidate. -/
def build_rows (uniqueCands : List Candidate) (scores : List ℚ) : List Row :=
  (uniqueCands.zip scores).enum.map (fun p => mk_row p.1 p.2.1 p.2.2)

/-- Step 7a: sort descending by the stored score (see the section comment
for the tie-order caveat). -/
def sort_rows (rows : List Row) : List Row := rows.mergeSort row_le

/-- Step 7b: `df["Rank"] = df.index + 1` after the sort. -/
def rerank (rows : List Row) : List Row :=
  rows.mapIdx (fun i r => { r with rank := i + 1 })

/-- Step 8: fill `AI Summary` for the first `min(5, len(df))` rows by
calling the summarizer on the row text and the stored (rounded) score;
all other rows keep the empty placeholder. -/
def apply_summaries (summarize : String → ℚ → String) (rows : List Row) :
    List Row :=
  rows.mapIdx (fun i r =>
    if i < 5 then { r with summary := summarize r.text r.score } else r)

/-- Steps 6 to 8 of `process_candidates`: build, sort, rerank, summarize.
`summarize text score` stands for
`generate_summary(job_description, text, score)` with the job description
fixed. -/
def assemble_results (summarize : String → ℚ → String)
    (uniqueCands : List Candidate) (scores : List ℚ) : List Row :=
  apply_summaries summarize (rerank (sort_rows (build_rows uniqueCands scores)))

/-! ### Definitions taken from the words of the spec (for refutations) -/

/-- Modelled from the spec (claim C7): the fallback summary that the spec
describes, with the same lower-bound-inclusive tier boundaries as
`classify_status` (`>=` instead of the `>` the code uses).  Only used to
compare against `fallback_summary`. -/
def fallback_summary_specIncl (similarity_score : ℚ) : String :=
  if similarity_score ≥ 0.8 then
    "This candidate demonstrates excellent alignment with the job requirements. The high similarity score of "
      ++ fmt3 similarity_score ++ " suggests a strong potential fit."
  else if similarity_score ≥ 0.6 then
    "This candidate shows good alignment with the job requirements, supported by a similarity score of "
      ++ fmt3 similarity_score ++ "."
  else if similarity_score ≥ 0.4 then
    "This candidate has a moderate match for the job, with a similarity score of "
      ++ fmt3 similarity_score ++ " indicating some relevant qualifications."
  else
    "This candidate has limited overlap with the job requirements, as indicated by a low similarity score of "
      ++ fmt3 similarity_score ++ "."

/-! ## Lemmas: the grouping loop -/

theorem add_to_groups_keys (gs : List (String × List Nat)) (k : String) (i : Nat) :
    (add_to_groups gs k i).map Prod.fst =
      if k ∈ gs.map Prod.fst then gs.map Prod.fst else gs.map Prod.fst ++ [k] := by
  induction gs with
  | nil => simp [add_to_groups]
  | cons g rest ih =>
    obtain ⟨k₁, is₁⟩ := g
    by_cases hk : k₁ = k
    · subst hk; simp [add_to_groups]
    · have hne : k ≠ k₁ := fun h => hk h.symm
      simp only [add_to_groups, if_neg hk, List.map_cons, ih, List.mem_cons]
      by_cases hm : k ∈ rest.map Prod.fst
      · rw [if_pos hm, if_pos (Or.inr hm)]
      · have hnot : ¬(k = k₁ ∨ k ∈ rest.map Prod.fst) := by
          rintro (h | h)
          · exact hne h
          · exact hm h
        rw [if_neg hm, if_neg hnot, List.cons_append]

theorem add_to_groups_not_found {gs : List (String × List Nat)} {k : String}
    (h : k ∉ gs.map Prod.fst) (i : Nat) :
    add_to_groups gs k i = gs ++ [(k, [i])] := by
  induction gs with
  | nil => rfl
  | cons g rest ih =>
    obtain ⟨k₁, is₁⟩ := g
    simp only [List.map_cons, List.mem_cons] at h
    push_neg at h
    simp only [add_to_groups, if_neg (fun hEq : k₁ = k => h.1 hEq.symm),
      List.cons_append, List.cons.injEq, true_and]
    exact ih h.2

theorem mem_add_to_groups_found {gs : List (String × List Nat)}
    (hN : (gs.map Prod.fst).Nodup) {k : String} {is : List Nat}
    (hmem : (k, is) ∈ gs) (i : Nat) (k' : String) (idxs' : List Nat) :
    (k', idxs') ∈ add_to_groups gs k i ↔
      (k' = k ∧ idxs' = is ++ [i]) ∨ (k' ≠ k ∧ (k', idxs') ∈ gs) := by
  induction gs with
  | nil => cases hmem
  | cons g rest ih =>
    obtain ⟨k₁, is₁⟩ := g
    rw [List.map_cons, List.nodup_cons] at hN
    by_cases h1 : k₁ = k
    · subst h1
      have hIs : is = is₁ := by
        rcases List.mem_cons.mp hmem with h | h
        · rcases h with ⟨rfl, rfl⟩; rfl
        · exact absurd (List.mem_map.mpr ⟨(k₁, is), h, rfl⟩) hN.1
      subst hIs
      rw [show add_to_groups ((k₁, is) :: rest) k₁ i = (k₁, is ++ [i]) :: rest from by
        simp [add_to_groups]]
      constructor
      · intro h
        rcases List.mem_cons.mp h with h2 | h2
        · rcases h2 with ⟨rfl, rfl⟩; exact Or.inl ⟨rfl, rfl⟩
        · refine Or.inr ⟨?_, List.mem_cons.mpr (Or.inr h2)⟩
          rintro rfl
          exact hN.1 (List.mem_map.mpr ⟨(k', idxs'), h2, rfl⟩)
      · intro h
        rcases h with ⟨rfl, rfl⟩ | ⟨hne, h2⟩
        · exact List.mem_cons.mpr (Or.inl rfl)
        · rcases List.mem_cons.mp h2 with h3 | h3
          · rcases h3 with ⟨rfl, rfl⟩; exact absurd rfl hne
          · exact List.mem_cons.mpr (Or.inr h3)
    · have hmem' : (k, is) ∈ rest := by
        rcases List.mem_cons.mp hmem with h | h
        · rcases h with ⟨rfl, rfl⟩; exact absurd rfl h1
        · exact h
      rw [show add_to_groups ((k₁, is₁) :: rest) k i =
          (k₁, is₁) :: add_to_groups rest k i from by simp [add_to_groups, h1]]
      constructor
      · intro h
        rcases List.mem_cons.mp h with h | h
        · rcases h with ⟨rfl, rfl⟩
          exact Or.inr ⟨h1, List.mem_cons.mpr (Or.inl rfl)⟩
        · rcases (ih hN.2 hmem').mp h with h' | h'
          · exact Or.inl h'
          · exact Or.inr ⟨h'.1, List.mem_cons.mpr (Or.inr h'.2)⟩
      · intro h
        rcases h with ⟨rfl, rfl⟩ | ⟨hne, h⟩
        · exact List.mem_cons.mpr (Or.inr ((ih hN.2 hmem').mpr (Or.inl ⟨rfl, rfl⟩)))
        · rcases List.mem_cons.mp h with h | h
          · rcases h with ⟨rfl, rfl⟩
            exact List.mem_cons.mpr (Or.inl rfl)
          · exact List.mem_cons.mpr (Or.inr ((ih hN.2 hmem').mpr (Or.inr ⟨hne, h⟩)))

theorem groups_from_append (ps : List (Nat × String)) (p : Nat × String) :
    groups_from (ps ++ [p]) = add_to_groups (groups_from ps) p.2 p.1 := by
  simp [groups_from, List.foldl_append]

theorem groups_from_spec (ps : List (Nat × String)) :
    ((groups_from ps).map Prod.fst).Nodup ∧
      ∀ k idxs, (k, idxs) ∈ groups_from ps ↔
        k ∈ ps.map Prod.snd ∧
          idxs = (ps.filter (fun q => q.2 = k)).map Prod.fst := by
  induction ps using List.reverseRecOn with
  | nil =>
    refine ⟨by simp [groups_from], ?_⟩
    intro k idxs
    simp [groups_from]
  | append_singleton ps p ih =>
    obtain ⟨j₀, k₀⟩ := p
    obtain ⟨ihN, ihM⟩ := ih
    have hkeys : ∀ k, k ∈ (groups_from ps).map Prod.fst ↔ k ∈ ps.map Prod.snd := by
      intro k
      constructor
      · intro hk
        obtain ⟨⟨k1, is1⟩, hq, hk1⟩ := List.mem_map.mp hk
        exact hk1 ▸ ((ihM k1 is1).mp hq).1
      · intro hk
        exact List.mem_map.mpr
          ⟨(k, (ps.filter (fun q => q.2 = k)).map Prod.fst),
            (ihM _ _).mpr ⟨hk, rfl⟩, rfl⟩
    by_cases hfound : k₀ ∈ ps.map Prod.snd
    · have hGmem : (k₀, (ps.filter (fun q => q.2 = k₀)).map Prod.fst) ∈
          groups_from ps := (ihM _ _).mpr ⟨hfound, rfl⟩
      constructor
      · rw [groups_from_append]
        have := add_to_groups_keys (groups_from ps) k₀ j₀
        rw [if_pos ((hkeys k₀).mpr hfound)] at this
        rw [this]
        exact ihN
      · intro k idxs
        rw [groups_from_append, mem_add_to_groups_found ihN hGmem]
        by_cases hk : k = k₀
        · subst hk
          constructor
          · rintro (⟨-, rfl⟩ | ⟨hne, -⟩)
            · refine ⟨by simp, ?_⟩
              rw [List.filter_append, List.map_append]
              simp
            · exact absurd rfl hne
          · rintro ⟨-, rfl⟩
            refine Or.inl ⟨rfl, ?_⟩
            rw [List.filter_append, List.map_append]
            simp
        · have hkn : ¬(k₀ = k) := fun h => hk h.symm
          have hfilter : List.filter (fun q => q.2 = k) [(j₀, k₀)] = [] := by
            simp [hkn]
          constructor
          · rintro (⟨h, -⟩ | ⟨-, hmem⟩)
            · exact absurd h hk
            · obtain ⟨h1, h2⟩ := (ihM k idxs).mp hmem
              refine ⟨by simp [h1], ?_⟩
              rw [List.filter_append, List.map_append, hfilter, List.map_nil,
                List.append_nil]
              exact h2
          · rintro ⟨h1, h2⟩
            refine Or.inr ⟨hk, (ihM k idxs).mpr ⟨?_, ?_⟩⟩
            · rw [List.map_append] at h1
              rcases List.mem_append.mp h1 with h | h
              · exact h
              · simp only [List.map_cons, List.map_nil, List.mem_singleton] at h
                exact absurd h hk
            · rw [List.filter_append, List.map_append, hfilter, List.map_nil,
                List.append_nil] at h2
              exact h2
    · have hnotkey : k₀ ∉ (groups_from ps).map Prod.fst :=
        fun h => hfound ((hkeys k₀).mp h)
      constructor
      · rw [groups_from_append, add_to_groups_not_found hnotkey, List.map_append]
        rw [List.nodup_append]
        refine ⟨ihN, by simp, ?_⟩
        intro a ha hb
        simp only [List.map_cons, List.map_nil, List.mem_singleton] at hb
        exact hnotkey (hb ▸ ha)
      · intro k idxs
        rw [groups_from_append, add_to_groups_not_found hnotkey, List.mem_append]
        by_cases hk : k = k₀
        · subst hk
          have hfilter : List.filter (fun q => q.2 = k) ps = [] := by
            rw [List.filter_eq_nil_iff]
            intro q hq hq2
            exact hfound (List.mem_map.mpr ⟨q, hq, by simpa using hq2⟩)
          constructor
          · rintro (h | h)
            · exact absurd (List.mem_map.mpr ⟨(k, idxs), h, rfl⟩) hnotkey
            · simp only [List.mem_singleton, Prod.mk.injEq] at h
              refine ⟨by simp, ?_⟩
              rw [List.filter_append, List.map_append, hfilter]
              simpa using h.2
          · rintro ⟨-, h2⟩
            rw [List.filter_append, List.map_append, hfilter] at h2
            simp only [List.map_nil, List.nil_append] at h2
            refine Or.inr (List.mem_singleton.mpr ?_)
            rw [show List.map Prod.fst (List.filter (fun q => q.2 = k)
              [(j₀, k)]) = [j₀] from by simp] at h2
            rw [h2]
        · have hkn : ¬(k₀ = k) := fun h => hk h.symm
          have hfilter2 : List.filter (fun q => q.2 = k) [(j₀, k₀)] = [] := by
            simp [hkn]
          constructor
          · rintro (h | h)
            · obtain ⟨h1, h2⟩ := (ihM k idxs).mp h
              refine ⟨by simp [h1], ?_⟩
              rw [List.filter_append, List.map_append, hfilter2, List.map_nil,
                List.append_nil]
              exact h2
            · simp only [List.mem_singleton, Prod.mk.injEq] at h
              exact absurd h.1 hk
          · rintro ⟨h1, h2⟩
            refine Or.inl ((ihM k idxs).mpr ⟨?_, ?_⟩)
            · rw [List.map_append] at h1
              rcases List.mem_append.mp h1 with h | h
              · exact h
              · simp only [List.map_cons, List.map_nil, List.mem_singleton] at h
                exact absurd h hk
            · rw [List.filter_append, List.map_append, hfilter2, List.map_nil,
                List.append_nil] at h2
              exact h2

theorem enum_key_pairs (key : Candidate → String) (valid : List Candidate) :
    valid.enum.map (fun p => (p.1, key p.2)) =
      (List.range valid.length).map (fun i => (i, key_at key valid i)) := by
  apply List.ext_getElem
  · simp
  · intro n h1 h2
    have hn : n < valid.length := by simpa using h2
    simp only [List.getElem_map, List.getElem_enum, List.getElem_range]
    rw [key_at, List.getD_eq_getElem valid default hn]

theorem mem_build_groups (key : Candidate → String) (valid : List Candidate)
    (k : String) (idxs : List Nat) :
    (k, idxs) ∈ build_groups key valid ↔
      (∃ i, i < valid.length ∧ key_at key valid i = k) ∧
        idxs = group_idxs key valid k := by
  rw [build_groups, enum_key_pairs, (groups_from_spec _).2]
  constructor
  · rintro ⟨h1, h2⟩
    constructor
    · obtain ⟨x, hx, hk⟩ := List.mem_map.mp h1
      obtain ⟨i, hi, hix⟩ := List.mem_map.mp hx
      refine ⟨i, List.mem_range.mp hi, ?_⟩
      rw [← hix] at hk
      exact hk
    · rw [h2, List.filter_map]
      simp [group_idxs, Function.comp_def]
  · rintro ⟨⟨i, hi, hk⟩, h2⟩
    constructor
    · exact List.mem_map.mpr ⟨(i, key_at key valid i),
        List.mem_map.mpr ⟨i, List.mem_range.mpr hi, rfl⟩, hk⟩
    · rw [h2, List.filter_map]
      simp [group_idxs, Function.comp_def]

theorem build_groups_keys_nodup (key : Candidate → String) (valid : List Candidate) :
    ((build_groups key valid).map Prod.fst).Nodup :=
  (groups_from_spec _).1

theorem mem_group_idxs (key : Candidate → String) (valid : List Candidate)
    (k : String) (i : Nat) :
    i ∈ group_idxs key valid k ↔ i < valid.length ∧ key_at key valid i = k := by
  simp [group_idxs]

theorem group_idxs_sorted (key : Candidate → String) (valid : List Candidate)
    (k : String) : (group_idxs key valid k).Pairwise (· < ·) :=
  List.Pairwise.filter _ (List.pairwise_lt_range _)

theorem head_filter_range' (p : Nat → Bool) :
    ∀ (n s : Nat), ((List.range' s n).filter p) ≠ [] →
      p (((List.range' s n).filter p).headD 0) = true ∧
      s ≤ ((List.range' s n).filter p).headD 0 ∧
      ((List.range' s n).filter p).headD 0 < s + n ∧
      ∀ i, s ≤ i → i < ((List.range' s n).filter p).headD 0 → p i = false := by
  intro n
  induction n with
  | zero =>
    intro s h
    simp [List.range'] at h
  | succ m ih =>
    intro s hne
    by_cases hp : p s = true
    · have heq : (List.range' s (m + 1)).filter p =
          s :: (List.range' (s + 1) m).filter p := by
        rw [List.range'_succ, List.filter_cons, if_pos hp]
      rw [heq]
      refine ⟨by simpa using hp, Nat.le_refl s,
        by simp only [List.headD_cons]; omega, ?_⟩
      intro i h1 h2
      simp only [List.headD_cons] at h2
      omega
    · have heq : (List.range' s (m + 1)).filter p =
          (List.range' (s + 1) m).filter p := by
        rw [List.range'_succ, List.filter_cons, if_neg hp]
      rw [heq] at hne ⊢
      obtain ⟨q1, q2, q3, q4⟩ := ih (s + 1) hne
      refine ⟨q1, by omega, by omega, ?_⟩
      intro i h1 h2
      rcases Nat.eq_or_lt_of_le h1 with h1' | h1'
      · rw [← h1']
        exact Bool.eq_false_iff.mpr hp
      · exact q4 i h1' h2

theorem first_mate_spec (key : Candidate → String) (valid : List Candidate)
    (j : Nat) (hj : j < valid.length) :
    first_mate key valid j ≤ j ∧ first_mate key valid j < valid.length ∧
      key_at key valid (first_mate key valid j) = key_at key valid j ∧
      ∀ i, i < first_mate key valid j →
        key_at key valid i ≠ key_at key valid j := by
  have hmem : j ∈ group_idxs key valid (key_at key valid j) :=
    (mem_group_idxs key valid _ j).mpr ⟨hj, rfl⟩
  have hne : group_idxs key valid (key_at key valid j) ≠ [] := by
    intro h
    rw [h] at hmem
    cases hmem
  have hrange : group_idxs key valid (key_at key valid j) =
      (List.range' 0 valid.length).filter
        (fun i => decide (key_at key valid i = key_at key valid j)) := by
    simp only [group_idxs]
    rw [List.range_eq_range']
  have hfm : first_mate key valid j =
      ((List.range' 0 valid.length).filter
        (fun i => decide (key_at key valid i = key_at key valid j))).headD 0 := by
    simp only [first_mate]
    rw [hrange]
  rw [hrange] at hne
  obtain ⟨q1, q2, q3, q4⟩ := head_filter_range'
    (fun i => decide (key_at key valid i = key_at key valid j)) valid.length 0 hne
  rw [hfm]
  have hkey : key_at key valid
      (((List.range' 0 valid.length).filter
        (fun i => decide (key_at key valid i = key_at key valid j))).headD 0) =
      key_at key valid j := of_decide_eq_true q1
  have hle : (((List.range' 0 valid.length).filter
      (fun i => decide (key_at key valid i = key_at key valid j))).headD 0) ≤ j := by
    by_contra hcon
    push_neg at hcon
    have := q4 j (Nat.zero_le j) hcon
    simp at this
  exact ⟨hle, by omega, hkey, fun i hi =>
    of_decide_eq_false (q4 i (Nat.zero_le i) hi)⟩

theorem mem_drop_one_sorted {l : List Nat} (hl : l.Pairwise (· < ·)) (j : Nat) :
    j ∈ l.drop 1 ↔ j ∈ l ∧ ∃ i ∈ l, i < j := by
  cases l with
  | nil => simp
  | cons a t =>
    rw [List.drop_one, List.tail_cons]
    rw [List.pairwise_cons] at hl
    constructor
    · intro hj
      exact ⟨List.mem_cons.mpr (Or.inr hj),
        a, List.mem_cons.mpr (Or.inl rfl), hl.1 j hj⟩
    · rintro ⟨hj, i, hi, hij⟩
      rcases List.mem_cons.mp hj with hj' | hj'
      · exfalso
        rcases List.mem_cons.mp hi with hi' | hi'
        · omega
        · have := hl.1 i hi'
          omega
      · exact hj'

theorem caught_by_iff (key : Candidate → String) (keyOk : String → Bool)
    (valid : List Candidate) (j : Nat) :
    caught_by key keyOk valid j = true ↔
      j < valid.length ∧ keyOk (key_at key valid j) = true ∧
        ∃ i, i < j ∧ key_at key valid i = key_at key valid j := by
  rw [caught_by]
  simp only [Bool.and_eq_true, decide_eq_true_eq, List.any_eq_true,
    List.mem_range]
  constructor
  · rintro ⟨⟨h1, h2⟩, i, hi, hk⟩
    exact ⟨h1, h2, i, hi, hk⟩
  · rintro ⟨h1, h2, i, hi, hk⟩
    exact ⟨⟨h1, h2⟩, i, hi, hk⟩

theorem caught_by_iff_tail (key : Candidate → String) (keyOk : String → Bool)
    (valid : List Candidate) (j : Nat) :
    caught_by key keyOk valid j = true ↔
      keyOk (key_at key valid j) = true ∧
        j ∈ (group_idxs key valid (key_at key valid j)).drop 1 := by
  rw [caught_by_iff,
    mem_drop_one_sorted (group_idxs_sorted key valid (key_at key valid j))]
  constructor
  · rintro ⟨hj, hOk, i, hij, hkey⟩
    exact ⟨hOk, (mem_group_idxs key valid _ j).mpr ⟨hj, rfl⟩,
      i, (mem_group_idxs key valid _ i).mpr ⟨by omega, hkey⟩, hij⟩
  · rintro ⟨hOk, hmem, i, hi, hij⟩
    have h1 := (mem_group_idxs key valid _ j).mp hmem
    have h2 := (mem_group_idxs key valid _ i).mp hi
    exact ⟨h1.1, hOk, i, hij, h2.2⟩

/-! ## Lemmas: the marking loops -/

theorem contains_iff (l : List Nat) (x : Nat) : l.contains x = true ↔ x ∈ l :=
  List.elem_iff

theorem forall₂_append_of {α β : Type} {R : α → β → Prop}
    {l₁ l₃ : List α} {l₂ l₄ : List β} (h₁ : List.Forall₂ R l₁ l₂)
    (h₂ : List.Forall₂ R l₃ l₄) : List.Forall₂ R (l₁ ++ l₃) (l₂ ++ l₄) := by
  induction h₁ with
  | nil => exact h₂
  | cons hr _ ih => exact List.Forall₂.cons hr ih

theorem forall₂_mem_right {α β : Type} {R : α → β → Prop}
    {l₁ : List α} {l₂ : List β} (h : List.Forall₂ R l₁ l₂) {b : β}
    (hb : b ∈ l₂) : ∃ a ∈ l₁, R a b := by
  induction h with
  | nil => cases hb
  | cons hr hf ih =>
    rcases List.mem_cons.mp hb with hb' | hb'
    · exact ⟨_, List.mem_cons.mpr (Or.inl rfl), hb' ▸ hr⟩
    · obtain ⟨a, ha, har⟩ := ih hb'
      exact ⟨a, List.mem_cons.mpr (Or.inr ha), har⟩

theorem forall₂_mem_left {α β : Type} {R : α → β → Prop}
    {l₁ : List α} {l₂ : List β} (h : List.Forall₂ R l₁ l₂) {a : α}
    (ha : a ∈ l₁) : ∃ b ∈ l₂, R a b := by
  induction h with
  | nil => cases ha
  | cons hr hf ih =>
    rcases List.mem_cons.mp ha with ha' | ha'
    · exact ⟨_, List.mem_cons.mpr (Or.inl rfl), ha' ▸ hr⟩
    · obtain ⟨b, hb, hbr⟩ := ih ha'
      exact ⟨b, List.mem_cons.mpr (Or.inr hb), hbr⟩

theorem forall₂_imp_mem_left {α β : Type} {R S : α → β → Prop}
    {l₁ : List α} {l₂ : List β} (h : List.Forall₂ R l₁ l₂)
    (himp : ∀ a b, a ∈ l₁ → R a b → S a b) : List.Forall₂ S l₁ l₂ := by
  induction h with
  | nil => exact List.Forall₂.nil
  | cons hr hf ih =>
    refine List.Forall₂.cons
      (himp _ _ (List.mem_cons.mpr (Or.inl rfl)) hr) (ih ?_)
    intro a b ha hab
    exact himp a b (List.mem_cons.mpr (Or.inr ha)) hab

theorem forall₂_pairwise {α β : Type} {R : α → β → Prop} {Q : α → α → Prop}
    {T : β → β → Prop} {l₁ : List α} {l₂ : List β}
    (h : List.Forall₂ R l₁ l₂) (hp : l₁.Pairwise Q)
    (himp : ∀ a₁ b₁ a₂ b₂, R a₁ b₁ → R a₂ b₂ → Q a₁ a₂ → T b₁ b₂) :
    l₂.Pairwise T := by
  induction h with
  | nil => exact List.Pairwise.nil
  | cons hr hf ih =>
    rw [List.pairwise_cons] at hp
    refine List.pairwise_cons.mpr ⟨?_, ih hp.2⟩
    intro b hb
    obtain ⟨a, ha, har⟩ := forall₂_mem_right hf hb
    exact himp _ _ _ _ hr har (hp.1 a ha)

theorem process_members_dups (tStr kindWord : String) (guard : Bool)
    (valid : List Candidate) (keptIdx : Nat) :
    ∀ (js : List Nat) (st st' : DetState),
      process_members tStr kindWord guard valid keptIdx js st = some st' →
      ∀ x, st'.dups.contains x = true ↔
        (st.dups.contains x = true ∨ x ∈ js) := by
  intro js
  induction js with
  | nil =>
    intro st st' h x
    rw [process_members] at h
    injection h with h
    rw [← h]
    simp
  | cons idx rest ih =>
    intro st st' h x
    rw [process_members] at h
    by_cases hg : (guard && st.dups.contains idx) = true
    · rw [if_pos hg] at h
      rw [ih st st' h x, List.mem_cons]
      constructor
      · rintro (h' | h')
        · exact Or.inl h'
        · exact Or.inr (Or.inr h')
      · rintro (h' | h' | h')
        · exact Or.inl h'
        · rw [h']
          exact Or.inl (Bool.and_eq_true .. ▸ hg).2
        · exact Or.inr h'
    · rw [if_neg hg] at h
      cases hmk : mk_dup_record tStr kindWord valid keptIdx idx with
      | none => rw [hmk] at h; cases h
      | some r =>
        rw [hmk] at h
        rw [ih _ st' h x, List.mem_cons]
        have hnew : ∀ y,
            (if st.dups.contains idx then st.dups else idx :: st.dups).contains y
              = true ↔ (y = idx ∨ st.dups.contains y = true) := by
          intro y
          by_cases hc : st.dups.contains idx = true
          · rw [if_pos hc]
            constructor
            · exact fun h' => Or.inr h'
            · rintro (rfl | h')
              · exact hc
              · exact h'
          · rw [if_neg hc, List.contains_cons]
            simp
        rw [hnew x]
        tauto

theorem process_members_recs (tStr kindWord : String) (guard : Bool)
    (valid : List Candidate) (keptIdx : Nat) :
    ∀ (js : List Nat), js.Nodup → ∀ (st st' : DetState),
      process_members tStr kindWord guard valid keptIdx js st = some st' →
      ∃ Δ, st'.recs = st.recs ++ Δ ∧
        List.Forall₂
          (fun j r => mk_dup_record tStr kindWord valid keptIdx j = some r)
          (js.filter (fun j => !(guard && st.dups.contains j))) Δ := by
  intro js
  induction js with
  | nil =>
    intro _ st st' h
    rw [process_members] at h
    injection h with h
    rw [← h]
    exact ⟨[], by simp, List.Forall₂.nil⟩
  | cons idx rest ih =>
    intro hnd st st' h
    rw [List.nodup_cons] at hnd
    rw [process_members] at h
    by_cases hg : (guard && st.dups.contains idx) = true
    · rw [if_pos hg] at h
      obtain ⟨Δ, h1, h2⟩ := ih hnd.2 st st' h
      refine ⟨Δ, h1, ?_⟩
      rw [List.filter_cons, if_neg (by rw [hg]; simp)]
      exact h2
    · rw [if_neg hg] at h
      cases hmk : mk_dup_record tStr kindWord valid keptIdx idx with
      | none => rw [hmk] at h; cases h
      | some r =>
        rw [hmk] at h
        obtain ⟨Δ₁, h1, h2⟩ := ih hnd.2 _ st' h
        refine ⟨r :: Δ₁, ?_, ?_⟩
        · rw [h1]
          simp
        · rw [List.filter_cons, if_pos (by rw [Bool.eq_false_iff.mpr hg]; rfl)]
          refine List.Forall₂.cons hmk ?_
          have hfc : rest.filter
              (fun j => !(guard &&
                (if st.dups.contains idx then st.dups
                  else idx :: st.dups).contains j)) =
              rest.filter (fun j => !(guard && st.dups.contains j)) := by
            apply List.filter_congr
            intro j hj
            have hne : j ≠ idx := fun hEq => hnd.1 (hEq ▸ hj)
            by_cases hc : st.dups.contains idx = true
            · rw [if_pos hc]
            · rw [if_neg hc, List.contains_cons]
              have hb : (j == idx) = false := beq_eq_false_iff_ne.mpr hne
              rw [hb, Bool.false_or]
          exact hfc ▸ h2

theorem process_groups_dups (tStr kindWord : String) (guard : Bool)
    (keyOk : String → Bool) (valid : List Candidate) :
    ∀ (gs : List (String × List Nat)) (st st' : DetState),
      process_groups tStr kindWord guard keyOk valid gs st = some st' →
      ∀ x, st'.dups.contains x = true ↔
        (st.dups.contains x = true ∨
          ∃ g ∈ gs, keyOk g.1 = true ∧ x ∈ g.2.drop 1) := by
  intro gs
  induction gs with
  | nil =>
    intro st st' h x
    rw [process_groups] at h
    injection h with h
    rw [← h]
    simp
  | cons g rest ih =>
    obtain ⟨k, idxs⟩ := g
    intro st st' h x
    rw [process_groups] at h
    by_cases hq : (decide (idxs.length > 1) && keyOk k) = true
    · rw [if_pos hq] at h
      have hk : keyOk k = true := (Bool.and_eq_true .. ▸ hq).2
      cases hpm : process_members tStr kindWord guard valid (idxs.headD 0)
          (idxs.drop 1) st with
      | none => rw [hpm] at h; cases h
      | some st₁ =>
        rw [hpm] at h
        rw [ih st₁ st' h x,
          process_members_dups tStr kindWord guard valid (idxs.headD 0)
            (idxs.drop 1) st st₁ hpm x]
        constructor
        · rintro ((h' | h') | h')
          · exact Or.inl h'
          · exact Or.inr ⟨(k, idxs), List.mem_cons.mpr (Or.inl rfl), hk, h'⟩
          · obtain ⟨g, hg, hgk, hgx⟩ := h'
            exact Or.inr ⟨g, List.mem_cons.mpr (Or.inr hg), hgk, hgx⟩
        · rintro (h' | ⟨g, hg, hgk, hgx⟩)
          · exact Or.inl (Or.inl h')
          · rcases List.mem_cons.mp hg with hg' | hg'
            · rw [hg'] at hgx
              exact Or.inl (Or.inr hgx)
            · exact Or.inr ⟨g, hg', hgk, hgx⟩
    · rw [if_neg hq] at h
      rw [ih st st' h x]
      have hhead : ¬(keyOk k = true ∧ x ∈ idxs.drop 1) := by
        rintro ⟨hkk, hx⟩
        rw [Bool.and_eq_true] at hq
        push_neg at hq
        by_cases hlen : idxs.length > 1
        · exact hq (decide_eq_true hlen) hkk
        · rw [List.drop_eq_nil_iff.mpr (by omega)] at hx
          cases hx
      constructor
      · rintro (h' | ⟨g, hg, hgk, hgx⟩)
        · exact Or.inl h'
        · exact Or.inr ⟨g, List.mem_cons.mpr (Or.inr hg), hgk, hgx⟩
      · rintro (h' | ⟨g, hg, hgk, hgx⟩)
        · exact Or.inl h'
        · rcases List.mem_cons.mp hg with hg' | hg'
          · rw [hg'] at hgk hgx
            exact absurd ⟨hgk, hgx⟩ hhead
          · exact Or.inr ⟨g, hg', hgk, hgx⟩

theorem process_groups_recs (tStr kindWord : String) (guard : Bool)
    (keyOk : String → Bool) (valid : List Candidate) :
    ∀ (gs : List (String × List Nat)),
      (∀ g ∈ gs, g.2.Nodup) →
      gs.Pairwise (fun g g' => ∀ j, j ∈ g.2 → j ∉ g'.2) →
      ∀ (st st' : DetState),
        process_groups tStr kindWord guard keyOk valid gs st = some st' →
        ∃ origins Δ, st'.recs = st.recs ++ Δ ∧ origins.Nodup ∧
          List.Forall₂ (fun j r =>
            (∃ g ∈ gs, keyOk g.1 = true ∧ j ∈ g.2.drop 1 ∧
              mk_dup_record tStr kindWord valid (g.2.headD 0) j = some r) ∧
            (guard = true → st.dups.contains j = false) ∧
            st'.dups.contains j = true) origins Δ ∧
          ∀ j, (∃ g ∈ gs, keyOk g.1 = true ∧ j ∈ g.2.drop 1) →
            (guard = true → st.dups.contains j = false) → j ∈ origins := by
  intro gs
  induction gs with
  | nil =>
    intro _ _ st st' h
    rw [process_groups] at h
    injection h with h
    rw [← h]
    refine ⟨[], [], by simp, List.Pairwise.nil, List.Forall₂.nil, ?_⟩
    rintro j ⟨g, hg, -⟩ -
    cases hg
  | cons g rest ih =>
    obtain ⟨k, idxs⟩ := g
    intro hnodups hpw st st' h
    have hndrest : ∀ g ∈ rest, g.2.Nodup :=
      fun g hg => hnodups g (List.mem_cons.mpr (Or.inr hg))
    rw [List.pairwise_cons] at hpw
    rw [process_groups] at h
    by_cases hq : (decide (idxs.length > 1) && keyOk k) = true
    · rw [if_pos hq] at h
      have hk : keyOk k = true := (Bool.and_eq_true .. ▸ hq).2
      cases hpm : process_members tStr kindWord guard valid (idxs.headD 0)
          (idxs.drop 1) st with
      | none => rw [hpm] at h; cases h
      | some st₁ =>
        rw [hpm] at h
        have hndtail : (idxs.drop 1).Nodup :=
          (List.drop_sublist 1 idxs).nodup
            (hnodups (k, idxs) (List.mem_cons.mpr (Or.inl rfl)))
        obtain ⟨Δ₀, hΔ₀, hf₀⟩ :=
          process_members_recs tStr kindWord guard valid (idxs.headD 0)
            (idxs.drop 1) hndtail st st₁ hpm
        obtain ⟨origins₁, Δ₁, hΔ₁, hnd₁, hf₁, hcomp₁⟩ := ih hndrest hpw.2 st₁ st' h
        have horig₁ : ∀ j ∈ origins₁, ∃ g ∈ rest, j ∈ g.2 := by
          intro j hj
          obtain ⟨r, -, ⟨g', hg', -, hjg', -⟩, -, -⟩ := forall₂_mem_left hf₁ hj
          exact ⟨g', hg', List.mem_of_mem_drop hjg'⟩
        have hpgd := process_groups_dups tStr kindWord guard keyOk valid rest
          st₁ st' h
        have hpmd := process_members_dups tStr kindWord guard valid
          (idxs.headD 0) (idxs.drop 1) st st₁ hpm
        have hdisj : ∀ j, j ∈ idxs → ∀ g' ∈ rest, j ∉ g'.2 :=
          fun j hj g' hg' => hpw.1 g' hg' j hj
        refine ⟨(idxs.drop 1).filter (fun j => !(guard && st.dups.contains j))
            ++ origins₁, Δ₀ ++ Δ₁, ?_, ?_, ?_, ?_⟩
        · rw [hΔ₁, hΔ₀, List.append_assoc]
        · rw [List.nodup_append]
          refine ⟨List.Nodup.filter _ hndtail, hnd₁, ?_⟩
          intro j hj hj1
          have hjg : j ∈ idxs := List.mem_of_mem_drop (List.mem_filter.mp hj).1
          obtain ⟨g', hg', hjg'⟩ := horig₁ j hj1
          exact hpw.1 g' hg' j hjg hjg'
        · refine forall₂_append_of ?_ ?_
          · refine forall₂_imp_mem_left hf₀ ?_
            intro j r hjmem hmk
            obtain ⟨hjd, hjc⟩ := List.mem_filter.mp hjmem
            refine ⟨⟨(k, idxs), List.mem_cons.mpr (Or.inl rfl), hk, hjd, hmk⟩,
              ?_, ?_⟩
            · intro hgt
              rw [hgt] at hjc
              rw [Bool.not_eq_true'] at hjc
              rw [Bool.true_and] at hjc
              exact hjc
            · exact (hpgd j).mpr (Or.inl ((hpmd j).mpr (Or.inr hjd)))
          · refine forall₂_imp_mem_left hf₁ ?_
            intro j r hjmem hrel
            obtain ⟨⟨g', hg', hgk', hjg', hmk'⟩, hguard, hdup⟩ := hrel
            refine ⟨⟨g', List.mem_cons.mpr (Or.inr hg'), hgk', hjg', hmk'⟩,
              ?_, hdup⟩
            intro hgt
            have h₁false := hguard hgt
            rw [Bool.eq_false_iff]
            intro hcon
            rw [(hpmd j).mpr (Or.inl hcon)] at h₁false
            cases h₁false
        · rintro j ⟨g', hg', hk', hj'⟩ hguard
          rcases List.mem_cons.mp hg' with hg'' | hg''
          · refine List.mem_append.mpr (Or.inl (List.mem_filter.mpr ⟨?_, ?_⟩))
            · rw [hg''] at hj'
              exact hj'
            · cases hgt : guard with
              | false => rfl
              | true =>
                rw [hguard hgt]
                rfl
          · refine List.mem_append.mpr (Or.inr (hcomp₁ j ⟨g', hg'', hk', hj'⟩ ?_))
            intro hgt
            have hst := hguard hgt
            rw [Bool.eq_false_iff]
            intro hcon
            rcases (hpmd j).mp hcon with hcon' | hcon'
            · rw [hcon'] at hst
              cases hst
            · exact hdisj j (List.mem_of_mem_drop hcon') g' hg''
                (List.mem_of_mem_drop hj')
    · rw [if_neg hq] at h
      obtain ⟨origins₁, Δ₁, hΔ₁, hnd₁, hf₁, hcomp₁⟩ := ih hndrest hpw.2 st st' h
      have hheadbad : ∀ j, ¬(keyOk k = true ∧ j ∈ idxs.drop 1) := by
        rintro j ⟨hkk, hx⟩
        rw [Bool.and_eq_true] at hq
        push_neg at hq
        by_cases hlen : idxs.length > 1
        · exact hq (decide_eq_true hlen) hkk
        · rw [List.drop_eq_nil_iff.mpr (by omega)] at hx
          cases hx
      refine ⟨origins₁, Δ₁, hΔ₁, hnd₁, forall₂_imp_mem_left hf₁ ?_, ?_⟩
      · intro j r _ hrel
        obtain ⟨⟨g', hg', hgk', hjg', hmk'⟩, hguard, hdup⟩ := hrel
        exact ⟨⟨g', List.mem_cons.mpr (Or.inr hg'), hgk', hjg', hmk'⟩,
          hguard, hdup⟩
      · rintro j ⟨g', hg', hk', hj'⟩ hguard
        rcases List.mem_cons.mp hg' with hg'' | hg''
        · rw [hg''] at hk' hj'
          exact absurd ⟨hk', hj'⟩ (hheadbad j)
        · exact hcomp₁ j ⟨g', hg'', hk', hj'⟩ hguard

/-! ## Lemmas: the whole detector -/

theorem group_idxs_nodup (key : Candidate → String) (valid : List Candidate)
    (k : String) : (group_idxs key valid k).Nodup :=
  List.Nodup.filter _ (List.nodup_range _)

theorem build_groups_member_nodup (key : Candidate → String)
    (valid : List Candidate) : ∀ g ∈ build_groups key valid, g.2.Nodup := by
  rintro ⟨k, idxs⟩ hg
  obtain ⟨-, hidxs⟩ := (mem_build_groups key valid k idxs).mp hg
  rw [show (k, idxs).2 = idxs from rfl, hidxs]
  exact group_idxs_nodup key valid k

theorem build_groups_disjoint (key : Candidate → String) (valid : List Candidate) :
    (build_groups key valid).Pairwise (fun g g' => ∀ j, j ∈ g.2 → j ∉ g'.2) := by
  have hN : ((build_groups key valid).map Prod.fst).Pairwise (· ≠ ·) :=
    build_groups_keys_nodup key valid
  rw [List.pairwise_map] at hN
  refine List.Pairwise.imp_of_mem ?_ hN
  intro g g' hg hg' hne j hj hj'
  obtain ⟨-, h2⟩ := (mem_build_groups key valid g.1 g.2).mp (by
    rw [show (g.1, g.2) = g from rfl]
    exact hg)
  obtain ⟨-, h2'⟩ := (mem_build_groups key valid g'.1 g'.2).mp (by
    rw [show (g'.1, g'.2) = g' from rfl]
    exact hg')
  rw [h2] at hj
  rw [h2'] at hj'
  have hk := ((mem_group_idxs key valid g.1 j).mp hj).2
  have hk' := ((mem_group_idxs key valid g'.1 j).mp hj').2
  exact hne (hk ▸ hk')

theorem exists_group_iff_caught (key : Candidate → String)
    (keyOk : String → Bool) (valid : List Candidate) (x : Nat) :
    (∃ g ∈ build_groups key valid, keyOk g.1 = true ∧ x ∈ g.2.drop 1) ↔
      caught_by key keyOk valid x = true := by
  constructor
  · rintro ⟨⟨k, idxs⟩, hg, hk, hx⟩
    obtain ⟨-, hidxs⟩ := (mem_build_groups key valid k idxs).mp hg
    subst hidxs
    have hxk := (mem_group_idxs key valid k x).mp (List.mem_of_mem_drop hx)
    rw [caught_by_iff_tail, hxk.2]
    exact ⟨hk, hx⟩
  · intro hc
    rw [caught_by_iff_tail] at hc
    obtain ⟨hOk, hmem⟩ := hc
    have hxlt := (mem_group_idxs key valid _ x).mp (List.mem_of_mem_drop hmem)
    exact ⟨(key_at key valid x, group_idxs key valid (key_at key valid x)),
      (mem_build_groups key valid _ _).mpr ⟨⟨x, hxlt.1, rfl⟩, rfl⟩, hOk, hmem⟩

theorem group_head_eq_first_mate (key : Candidate → String)
    (valid : List Candidate) {k : String} {idxs : List Nat} {j : Nat}
    (hg : (k, idxs) ∈ build_groups key valid) (hj : j ∈ idxs.drop 1) :
    idxs.headD 0 = first_mate key valid j := by
  obtain ⟨-, hidxs⟩ := (mem_build_groups key valid k idxs).mp hg
  subst hidxs
  have hjk := (mem_group_idxs key valid k j).mp (List.mem_of_mem_drop hj)
  rw [first_mate, hjk.2]

theorem mem_group_tail_lt (key : Candidate → String) (valid : List Candidate)
    {k : String} {idxs : List Nat} {j : Nat}
    (hg : (k, idxs) ∈ build_groups key valid) (hj : j ∈ idxs.drop 1) :
    j < valid.length := by
  obtain ⟨-, hidxs⟩ := (mem_build_groups key valid k idxs).mp hg
  subst hidxs
  exact ((mem_group_idxs key valid k j).mp (List.mem_of_mem_drop hj)).1

theorem detect_duplicates_spec (cands : List Candidate)
    (uniq : List Candidate) (recs : List DupRecord)
    (h : detect_duplicates cands = some (uniq, recs)) :
    ∃ D : List Nat,
      (∀ x, D.contains x = true ↔
        (caught_email (cands.filter valid_candidate) x = true ∨
         caught_content (cands.filter valid_candidate) x = true ∨
         caught_ne (cands.filter valid_candidate) x = true)) ∧
      uniq = ((cands.filter valid_candidate).enum.filter
        (fun p => !D.contains p.1)).map Prod.snd ∧
      ∃ origins : List Nat, origins.Nodup ∧
        (∀ j, D.contains j = true → j ∈ origins) ∧
        List.Forall₂ (record_spec (cands.filter valid_candidate)) origins recs := by
  have hcaught_len : ∀ (key : Candidate → String) (keyOk : String → Bool)
      (valid : List Candidate) (x : Nat), valid.length = 0 →
      caught_by key keyOk valid x = false := by
    intro key keyOk valid x hlen
    rw [Bool.eq_false_iff]
    intro hc
    have := (caught_by_iff key keyOk valid x).mp hc
    omega
  simp only [detect_duplicates] at h
  by_cases hempty : cands.isEmpty = true
  · rw [if_pos hempty] at h
    rw [Option.some.injEq, Prod.mk.injEq] at h
    obtain ⟨h1, h2⟩ := h
    subst h1
    subst h2
    have hnil : cands = [] := List.isEmpty_iff.mp hempty
    subst hnil
    refine ⟨[], ?_, by simp, [], List.Pairwise.nil, ?_, List.Forall₂.nil⟩
    · intro x
      rw [caught_email, caught_content, caught_ne,
        hcaught_len email_key sentinel_ok _ x (by simp),
        hcaught_len content_key (fun _ => true) _ x (by simp),
        hcaught_len name_email_key (fun _ => true) _ x (by simp)]
      simp
    · intro j hj
      cases hj
  · rw [if_neg hempty] at h
    by_cases hvempty : (cands.filter valid_candidate).isEmpty = true
    · rw [if_pos hvempty] at h
      rw [Option.some.injEq, Prod.mk.injEq] at h
      obtain ⟨h1, h2⟩ := h
      subst h1
      subst h2
      have hnil : cands.filter valid_candidate = [] :=
        List.isEmpty_iff.mp hvempty
      refine ⟨[], ?_, by rw [hnil]; simp, [], List.Pairwise.nil, ?_,
        List.Forall₂.nil⟩
      · intro x
        rw [caught_email, caught_content, caught_ne,
          hcaught_len email_key sentinel_ok _ x (by rw [hnil]; rfl),
          hcaught_len content_key (fun _ => true) _ x (by rw [hnil]; rfl),
          hcaught_len name_email_key (fun _ => true) _ x (by rw [hnil]; rfl)]
        simp
      · intro j hj
        cases hj
    · rw [if_neg hvempty] at h
      cases h1 : process_groups "email_duplicate" "email" false sentinel_ok
          (cands.filter valid_candidate)
          (build_groups email_key (cands.filter valid_candidate)) ⟨[], []⟩ with
      | none => exact absurd h (by simp [h1])
      | some st1 =>
        simp only [h1] at h
        cases h2 : process_groups "content_duplicate" "content" true
            (fun _ => true) (cands.filter valid_candidate)
            (build_groups content_key (cands.filter valid_candidate)) st1 with
        | none => exact absurd h (by simp [h1, h2])
        | some st2 =>
          simp only [h2] at h
          cases h3 : process_groups "name_email_duplicate" "name+email" true
              (fun _ => true) (cands.filter valid_candidate)
              (build_groups name_email_key (cands.filter valid_candidate))
              st2 with
          | none => exact absurd h (by simp [h1, h2, h3])
          | some st3 =>
            simp only [h3] at h
            rw [Option.some.injEq, Prod.mk.injEq] at h
            obtain ⟨h4, h5⟩ := h
            subst h4
            subst h5
            set valid := cands.filter valid_candidate with hvalid
            have hd1 := process_groups_dups "email_duplicate" "email" false
              sentinel_ok valid _ _ _ h1
            have hd2 := process_groups_dups "content_duplicate" "content" true
              (fun _ => true) valid _ _ _ h2
            have hd3 := process_groups_dups "name_email_duplicate" "name+email"
              true (fun _ => true) valid _ _ _ h3
            have hD : ∀ x, st3.dups.contains x = true ↔
                (caught_email valid x = true ∨ caught_content valid x = true ∨
                  caught_ne valid x = true) := by
              intro x
              rw [hd3 x, hd2 x, hd1 x]
              rw [exists_group_iff_caught email_key sentinel_ok valid x,
                exists_group_iff_caught content_key (fun _ => true) valid x,
                exists_group_iff_caught name_email_key (fun _ => true) valid x]
              show (((List.contains [] x = true ∨ _) ∨ _) ∨ _) ↔ _
              simp only [List.contains, List.elem_nil, Bool.false_eq_true,
                false_or]
              rw [caught_email, caught_content, caught_ne]
              tauto
            obtain ⟨or₁, Δ₁, hr₁, hnd₁, hf₁, hc₁⟩ :=
              process_groups_recs "email_duplicate" "email" false sentinel_ok
                valid _ (build_groups_member_nodup email_key valid)
                (build_groups_disjoint email_key valid) _ _ h1
            obtain ⟨or₂, Δ₂, hr₂, hnd₂, hf₂, hc₂⟩ :=
              process_groups_recs "content_duplicate" "content" true
                (fun _ => true) valid _
                (build_groups_member_nodup content_key valid)
                (build_groups_disjoint content_key valid) _ _ h2
            obtain ⟨or₃, Δ₃, hr₃, hnd₃, hf₃, hc₃⟩ :=
              process_groups_recs "name_email_duplicate" "name+email" true
                (fun _ => true) valid _
                (build_groups_member_nodup name_email_key valid)
                (build_groups_disjoint name_email_key valid) _ _ h3
            have hor₁st : ∀ j ∈ or₁, st1.dups.contains j = true := by
              intro j hj
              obtain ⟨r, -, -, -, hst⟩ := forall₂_mem_left hf₁ hj
              exact hst
            have hor₂st : ∀ j ∈ or₂, st2.dups.contains j = true ∧
                st1.dups.contains j = false := by
              intro j hj
              obtain ⟨r, -, -, hg, hst⟩ := forall₂_mem_left hf₂ hj
              exact ⟨hst, hg rfl⟩
            have hor₃st : ∀ j ∈ or₃, st2.dups.contains j = false := by
              intro j hj
              obtain ⟨r, -, -, hg, -⟩ := forall₂_mem_left hf₃ hj
              exact hg rfl
            refine ⟨st3.dups, hD, rfl, or₁ ++ or₂ ++ or₃, ?_, ?_, ?_⟩
            · rw [List.nodup_append, List.nodup_append]
              refine ⟨⟨hnd₁, hnd₂, ?_⟩, hnd₃, ?_⟩
              · intro j hj₁ hj₂
                have hT := hor₁st j hj₁
                rw [(hor₂st j hj₂).2] at hT
                cases hT
              · intro j hj₁₂ hj₃
                have hst2f := hor₃st j hj₃
                rcases List.mem_append.mp hj₁₂ with hj' | hj'
                · have := (hd2 j).mpr (Or.inl (hor₁st j hj'))
                  rw [hst2f] at this
                  cases this
                · have := (hor₂st j hj').1
                  rw [hst2f] at this
                  cases this
            · intro j hj
              rcases (hD j).mp hj with hcE | hcC | hcN
              · refine List.mem_append.mpr (Or.inl (List.mem_append.mpr
                  (Or.inl (hc₁ j ?_ ?_))))
                · exact (exists_group_iff_caught email_key sentinel_ok valid
                    j).mpr hcE
                · intro hcon
                  cases hcon
              · by_cases hcE : caught_email valid j = true
                · refine List.mem_append.mpr (Or.inl (List.mem_append.mpr
                    (Or.inl (hc₁ j ?_ ?_))))
                  · exact (exists_group_iff_caught email_key sentinel_ok valid
                      j).mpr hcE
                  · intro hcon
                    cases hcon
                · refine List.mem_append.mpr (Or.inl (List.mem_append.mpr
                    (Or.inr (hc₂ j ?_ ?_))))
                  · exact (exists_group_iff_caught content_key (fun _ => true)
                      valid j).mpr hcC
                  · intro hTriv
                    rw [Bool.eq_false_iff]
                    intro hcon
                    rcases (hd1 j).mp hcon with hcon' | hcon'
                    · simp at hcon'
                    · exact hcE ((exists_group_iff_caught email_key sentinel_ok
                        valid j).mp hcon')
              · by_cases hcE : caught_email valid j = true
                · refine List.mem_append.mpr (Or.inl (List.mem_append.mpr
                    (Or.inl (hc₁ j ?_ ?_))))
                  · exact (exists_group_iff_caught email_key sentinel_ok valid
                      j).mpr hcE
                  · intro hcon
                    cases hcon
                · by_cases hcC : caught_content valid j = true
                  · refine List.mem_append.mpr (Or.inl (List.mem_append.mpr
                      (Or.inr (hc₂ j ?_ ?_))))
                    · exact (exists_group_iff_caught content_key (fun _ => true)
                        valid j).mpr hcC
                    · intro hTriv
                      rw [Bool.eq_false_iff]
                      intro hcon
                      rcases (hd1 j).mp hcon with hcon' | hcon'
                      · simp at hcon'
                      · exact hcE ((exists_group_iff_caught email_key
                          sentinel_ok valid j).mp hcon')
                  · refine List.mem_append.mpr (Or.inr (hc₃ j ?_ ?_))
                    · exact (exists_group_iff_caught name_email_key
                        (fun _ => true) valid j).mpr hcN
                    · intro hTriv
                      rw [Bool.eq_false_iff]
                      intro hcon
                      rcases (hd2 j).mp hcon with hcon' | hcon'
                      · rcases (hd1 j).mp hcon' with hcon'' | hcon''
                        · simp at hcon''
                        · exact hcE ((exists_group_iff_caught email_key
                            sentinel_ok valid j).mp hcon'')
                      · exact hcC ((exists_group_iff_caught content_key
                          (fun _ => true) valid j).mp hcon')
            · have hrecs : st3.recs = Δ₁ ++ Δ₂ ++ Δ₃ := by
                rw [hr₃, hr₂, hr₁]
                simp
              rw [hrecs]
              refine forall₂_append_of (forall₂_append_of ?_ ?_) ?_
              · refine forall₂_imp_mem_left hf₁ ?_
                rintro j r - ⟨⟨g, hg, hgk, hjg, hmk⟩, -, -⟩
                refine ⟨mem_group_tail_lt email_key valid hg hjg, Or.inl ?_⟩
                obtain ⟨k, idxs⟩ := g
                rw [group_head_eq_first_mate email_key valid hg hjg] at hmk
                refine ⟨(exists_group_iff_caught email_key sentinel_ok valid
                  j).mp ⟨(k, idxs), hg, hgk, hjg⟩, hmk⟩
              · refine forall₂_imp_mem_left hf₂ ?_
                rintro j r - ⟨⟨g, hg, hgk, hjg, hmk⟩, hguard, -⟩
                have hE : caught_email valid j = false := by
                  rw [Bool.eq_false_iff]
                  intro hcon
                  have := (hd1 j).mpr (Or.inr
                    ((exists_group_iff_caught email_key sentinel_ok valid
                      j).mpr hcon))
                  rw [hguard rfl] at this
                  cases this
                refine ⟨mem_group_tail_lt content_key valid hg hjg,
                  Or.inr (Or.inl ⟨hE, ?_, ?_⟩)⟩
                · exact (exists_group_iff_caught content_key (fun _ => true)
                    valid j).mp ⟨g, hg, hgk, hjg⟩
                · obtain ⟨k, idxs⟩ := g
                  rw [group_head_eq_first_mate content_key valid hg hjg] at hmk
                  exact hmk
              · refine forall₂_imp_mem_left hf₃ ?_
                rintro j r - ⟨⟨g, hg, hgk, hjg, hmk⟩, hguard, -⟩
                have hst2f := hguard rfl
                have hE : caught_email valid j = false := by
                  rw [Bool.eq_false_iff]
                  intro hcon
                  have := (hd2 j).mpr (Or.inl ((hd1 j).mpr (Or.inr
                    ((exists_group_iff_caught email_key sentinel_ok valid
                      j).mpr hcon))))
                  rw [hst2f] at this
                  cases this
                have hC : caught_content valid j = false := by
                  rw [Bool.eq_false_iff]
                  intro hcon
                  have := (hd2 j).mpr (Or.inr
                    ((exists_group_iff_caught content_key (fun _ => true) valid
                      j).mpr hcon))
                  rw [hst2f] at this
                  cases this
                refine ⟨mem_group_tail_lt name_email_key valid hg hjg,
                  Or.inr (Or.inr ⟨hE, hC, ?_, ?_⟩)⟩
                · exact (exists_group_iff_caught name_email_key (fun _ => true)
                    valid j).mp ⟨g, hg, hgk, hjg⟩
                · obtain ⟨k, idxs⟩ := g
                  rw [group_head_eq_first_mate name_email_key valid hg hjg]
                    at hmk
                  exact hmk

/-! ## Lemmas: the ranking assembly -/

theorem row_le_trans : ∀ a b c : Row, row_le a b = true → row_le b c = true →
    row_le a c = true := by
  intro a b c h1 h2
  rw [row_le, decide_eq_true_eq] at h1 h2 ⊢
  exact le_trans h2 h1

theorem row_le_total : ∀ a b : Row, (row_le a b || row_le b a) = true := by
  intro a b
  rw [Bool.or_eq_true, row_le, row_le, decide_eq_true_eq, decide_eq_true_eq]
  exact le_total b.score a.score

theorem sort_rows_perm (rows : List Row) : (sort_rows rows).Perm rows :=
  List.mergeSort_perm rows row_le

theorem sort_rows_sorted (rows : List Row) :
    (sort_rows rows).Pairwise (fun a b => b.score ≤ a.score) := by
  refine (List.sorted_mergeSort row_le_trans row_le_total rows).imp ?_
  intro a b hab
  rw [row_le, decide_eq_true_eq] at hab
  exact hab

theorem build_rows_length (cs : List Candidate) (ss : List ℚ) :
    (build_rows cs ss).length = (cs.zip ss).length := by
  simp [build_rows]

theorem sort_rows_length (rows : List Row) :
    (sort_rows rows).length = rows.length :=
  (sort_rows_perm rows).length_eq

theorem assemble_results_length (f : String → ℚ → String)
    (cs : List Candidate) (ss : List ℚ) :
    (assemble_results f cs ss).length = (cs.zip ss).length := by
  rw [assemble_results, apply_summaries, List.length_mapIdx, rerank,
    List.length_mapIdx, sort_rows_length, build_rows_length]

theorem mem_build_rows (cs : List Candidate) (ss : List ℚ) (r : Row)
    (hr : r ∈ build_rows cs ss) :
    ∃ cz ∈ cs.zip ss, r.score = roundTo4 cz.2 ∧
      r.status = (classify_status cz.2).1 ∧
      r.status_class = (classify_status cz.2).2 ∧
      r.candidate_id = cz.1.id?.getD "" ∧ r.text = cz.1.text?.getD "" ∧
      r.summary = "" := by
  rw [build_rows] at hr
  obtain ⟨p, hp, hpr⟩ := List.mem_map.mp hr
  obtain ⟨n, hn, hnp⟩ := List.mem_iff_getElem.mp hp
  refine ⟨p.2, ?_, ?_⟩
  · rw [← hnp]
    rw [List.getElem_enum]
    exact List.getElem_mem _
  · rw [← hpr]
    exact ⟨rfl, rfl, rfl, rfl, rfl, rfl⟩

theorem mem_sort_rows (cs : List Candidate) (ss : List ℚ) (r : Row)
    (hr : r ∈ sort_rows (build_rows cs ss)) :
    ∃ cz ∈ cs.zip ss, r.score = roundTo4 cz.2 ∧
      r.status = (classify_status cz.2).1 ∧
      r.status_class = (classify_status cz.2).2 ∧
      r.candidate_id = cz.1.id?.getD "" ∧ r.text = cz.1.text?.getD "" ∧
      r.summary = "" :=
  mem_build_rows cs ss r ((sort_rows_perm _).mem_iff.mp hr)

theorem assemble_results_fields (f : String → ℚ → String)
    (cs : List Candidate) (ss : List ℚ) (i : Nat)
    (h : i < (assemble_results f cs ss).length) :
    ∃ h' : i < (sort_rows (build_rows cs ss)).length,
      ((assemble_results f cs ss).getD i default).rank = i + 1 ∧
      ((assemble_results f cs ss).getD i default).score =
        (sort_rows (build_rows cs ss))[i].score ∧
      ((assemble_results f cs ss).getD i default).status =
        (sort_rows (build_rows cs ss))[i].status ∧
      ((assemble_results f cs ss).getD i default).text =
        (sort_rows (build_rows cs ss))[i].text ∧
      ((assemble_results f cs ss).getD i default).candidate_id =
        (sort_rows (build_rows cs ss))[i].candidate_id ∧
      ((assemble_results f cs ss).getD i default).summary =
        (if i < 5 then
          f (sort_rows (build_rows cs ss))[i].text
            (sort_rows (build_rows cs ss))[i].score
        else (sort_rows (build_rows cs ss))[i].summary) := by
  have h' : i < (sort_rows (build_rows cs ss)).length := by
    rw [sort_rows_length, build_rows_length, ← assemble_results_length f]
    exact h
  refine ⟨h', ?_⟩
  rw [List.getD_eq_getElem _ _ h]
  simp only [assemble_results, apply_summaries, rerank, List.getElem_mapIdx]
  by_cases h5 : i < 5
  · simp [h5]
  · simp [h5]

/-! ## Helper lemmas for the claim theorems -/

theorem mk_dup_record_some {tStr kindWord : String} {valid : List Candidate}
    {keptIdx idx : Nat} {r : DupRecord}
    (h : mk_dup_record tStr kindWord valid keptIdx idx = some r) :
    ∃ cid kid, (valid.getD idx default).id? = some cid ∧
      (valid.getD keptIdx default).id? = some kid ∧
      r = ⟨tStr, cid, (valid.getD idx default).name?.getD "",
        (valid.getD idx default).email?.getD "",
        "Duplicate " ++ kindWord ++ " with candidate " ++ kid⟩ := by
  rw [mk_dup_record] at h
  cases hc : (valid.getD idx default).id? with
  | none => rw [hc] at h; cases h
  | some cid =>
    cases hk : (valid.getD keptIdx default).id? with
    | none => rw [hc, hk] at h; cases h
    | some kid =>
      rw [hc, hk] at h
      injection h with h
      exact ⟨cid, kid, rfl, rfl, h.symm⟩

theorem countP_le_one_of_pairwise {α : Type} (l : List α) (p : α → Bool)
    (h : l.Pairwise (fun a b => ¬(p a = true ∧ p b = true))) :
    l.countP p ≤ 1 := by
  induction l with
  | nil => simp
  | cons a t ih =>
    rw [List.pairwise_cons] at h
    rw [List.countP_cons]
    by_cases hp : p a = true
    · have hz : t.countP p = 0 := by
        rw [List.countP_eq_zero]
        intro b hb hpb
        exact h.1 b hb ⟨hp, hpb⟩
      rw [hz, if_pos hp]
    · rw [if_neg hp]
      have := ih h.2
      omega

theorem first_mate_lt_of_caught (key : Candidate → String)
    (keyOk : String → Bool) (valid : List Candidate) (j : Nat)
    (hc : caught_by key keyOk valid j = true) :
    first_mate key valid j < j := by
  obtain ⟨hj, -, i, hij, hkey⟩ := (caught_by_iff key keyOk valid j).mp hc
  obtain ⟨-, -, -, hmin⟩ := first_mate_spec key valid j hj
  by_contra hcon
  push_neg at hcon
  have hilt : i < first_mate key valid j := by omega
  exact hmin i hilt hkey

theorem enum_pairwise_struct (valid : List Candidate) :
    valid.enum.Pairwise (fun p q => p.1 < q.1 ∧ q.1 < valid.length ∧
      p.2 = valid.getD p.1 default ∧ q.2 = valid.getD q.1 default) := by
  rw [List.pairwise_iff_getElem]
  intro i j hi hj hij
  rw [List.getElem_enum, List.getElem_enum]
  have hi' : i < valid.length := by simpa using hi
  have hj' : j < valid.length := by simpa using hj
  exact ⟨hij, hj', (List.getD_eq_getElem valid default hi').symm,
    (List.getD_eq_getElem valid default hj').symm⟩

theorem pairwise_ids_ne (valid : List Candidate)
    (hids : (valid.map (fun c => c.id?)).Pairwise (· ≠ ·)) :
    ∀ i j, i < valid.length → j < valid.length → i ≠ j →
      (valid.getD i default).id? ≠ (valid.getD j default).id? := by
  rw [List.pairwise_map, List.pairwise_iff_getElem] at hids
  intro i j hi hj hne
  rcases Nat.lt_or_ge i j with hlt | hge
  · rw [List.getD_eq_getElem valid default hi, List.getD_eq_getElem valid default hj]
    exact hids i j hi hj hlt
  · have hlt : j < i := by omega
    rw [List.getD_eq_getElem valid default hi, List.getD_eq_getElem valid default hj]
    exact fun hEq => hids j i hj hi hlt hEq.symm

theorem fallback_summary_eq_template (s : ℚ) :
    fallback_summary s = tier_template (fallback_tier s) (fmt3 s) := by
  by_cases h1 : s > 0.8
  · simp [fallback_summary, fallback_tier, tier_template, h1]
  · by_cases h2 : s > 0.6
    · simp [fallback_summary, fallback_tier, tier_template, h1, h2]
    · by_cases h3 : s > 0.4
      · simp [fallback_summary, fallback_tier, tier_template, h1, h2, h3]
      · simp [fallback_summary, fallback_tier, tier_template, h1, h2, h3]

theorem fmt3_eight_tenths : fmt3 0.8 = "0.800" := by
  have h1 : roundHalfEven ((0.8 : ℚ) * 1000) = 800 := by
    norm_num [roundHalfEven]
  simp only [fmt3, h1]
  decide

/-! ## Claim theorems -/

/-- Claim C6: `classify_status` classifies by exact lower-bound-inclusive
thresholds: score at least 0.8 is Excellent, at least 0.6 (but below 0.8)
is Good, at least 0.4 (but below 0.6) is Fair, and anything below 0.4 is
Poor; in particular 0.8 is Excellent, 0.79999 is Good, 0.4 is Fair and
0.39999 is Poor. -/
theorem classify_status_thresholds :
    (∀ s : ℚ, 0.8 ≤ s →
      classify_status s = ("Excellent Match", "status-excellent")) ∧
    (∀ s : ℚ, 0.6 ≤ s → s < 0.8 →
      classify_status s = ("Good Match", "status-good")) ∧
    (∀ s : ℚ, 0.4 ≤ s → s < 0.6 →
      classify_status s = ("Fair Match", "status-fair")) ∧
    (∀ s : ℚ, s < 0.4 →
      classify_status s = ("Poor Match", "status-poor")) ∧
    classify_status 0.8 = ("Excellent Match", "status-excellent") ∧
    classify_status 0.79999 = ("Good Match", "status-good") ∧
    classify_status 0.4 = ("Fair Match", "status-fair") ∧
    classify_status 0.39999 = ("Poor Match", "status-poor") := by
  refine ⟨?_, ?_, ?_, ?_, by norm_num [classify_status],
    by norm_num [classify_status], by norm_num [classify_status],
    by norm_num [classify_status]⟩
  · intro s h
    rw [classify_status, if_pos h]
  · intro s h1 h2
    rw [classify_status, if_neg (by exact not_le.mpr h2), if_pos h1]
  · intro s h1 h2
    rw [classify_status, if_neg (by exact not_le.mpr (by linarith)),
      if_neg (by exact not_le.mpr h2), if_pos h1]
  · intro s h
    rw [classify_status, if_neg (by exact not_le.mpr (by linarith)),
      if_neg (by exact not_le.mpr (by linarith)),
      if_neg (by exact not_le.mpr h)]

/-- Witness for C6 at concrete scores. -/
theorem classify_status_thresholds_witness :
    ((0.8 : ℚ) ≤ 0.95 ∧
      classify_status 0.95 = ("Excellent Match", "status-excellent")) ∧
    ((0.6 : ℚ) ≤ 0.7 ∧ (0.7 : ℚ) < 0.8 ∧
      classify_status 0.7 = ("Good Match", "status-good")) :=
  ⟨⟨by norm_num, classify_status_thresholds.1 0.95 (by norm_num)⟩,
    ⟨by norm_num, by norm_num,
      classify_status_thresholds.2.1 0.7 (by norm_num) (by norm_num)⟩⟩

/-- Claim C7 counterexample: the fallback summary does not use the
lower-bound-inclusive tier boundaries of `classify_status`.  At score
exactly 0.8 the code (strict `>`) picks the Good-tier template, while the
claimed inclusive boundaries (`fallback_summary_specIncl`) pick the
Excellent-tier template. -/
theorem fallback_summary_inclusive_counterexample :
    fallback_summary 0.8 ≠ fallback_summary_specIncl 0.8 ∧
    fallback_summary 0.8 = tier_template 2 "0.800" ∧
    fallback_summary_specIncl 0.8 = tier_template 3 "0.800" := by
  have hgood : fallback_summary 0.8 = tier_template 2 "0.800" := by
    rw [fallback_summary_eq_template,
      show fallback_tier 0.8 = 2 from by norm_num [fallback_tier],
      fmt3_eight_tenths]
  have hexc : fallback_summary_specIncl 0.8 = tier_template 3 "0.800" := by
    rw [show fallback_summary_specIncl 0.8 =
        tier_template 3 (fmt3 0.8) from by
      norm_num [fallback_summary_specIncl, tier_template], fmt3_eight_tenths]
  refine ⟨?_, hgood, hexc⟩
  rw [hgood, hexc]
  decide

/-- Claim C7 (amended): the summarizer is total (never raises); with no
backend available or on backend failure it returns `fallback_summary`,
which is a deterministic function of the score tier and the formatted
score value alone — but the tier boundaries are strict (`score > 0.8`,
`> 0.6`, `> 0.4`, exclusive lower bounds), not the inclusive (`>=`)
boundaries of `classify_status`: at scores exactly 0.8, 0.6 and 0.4 the
next-lower template is chosen. -/
theorem generate_summary_fallback_deterministic :
    (∀ (jd rt : String) (s : ℚ),
      generate_summary none jd rt s = fallback_summary s) ∧
    (∀ s : ℚ, fallback_summary s = tier_template (fallback_tier s) (fmt3 s)) ∧
    (∀ s₁ s₂ : ℚ, fallback_tier s₁ = fallback_tier s₂ → fmt3 s₁ = fmt3 s₂ →
      fallback_summary s₁ = fallback_summary s₂) ∧
    (∀ s : ℚ, 0.8 < s → fallback_tier s = 3) ∧
    fallback_tier 0.8 = 2 ∧ fallback_tier 0.6 = 1 ∧ fallback_tier 0.4 = 0 := by
  refine ⟨fun jd rt s => rfl, fallback_summary_eq_template, ?_, ?_,
    by norm_num [fallback_tier], by norm_num [fallback_tier],
    by norm_num [fallback_tier]⟩
  · intro s₁ s₂ ht hf
    rw [fallback_summary_eq_template, fallback_summary_eq_template, ht, hf]
  · intro s h
    rw [fallback_tier, if_pos h]

/-- Witness for C7 at concrete scores. -/
theorem generate_summary_fallback_deterministic_witness :
    (generate_summary none "job" "resume" 0.5 = fallback_summary 0.5) ∧
    ((0.8 : ℚ) < 0.9 ∧ fallback_tier 0.9 = 3) :=
  ⟨generate_summary_fallback_deterministic.1 "job" "resume" 0.5,
    by norm_num,
    generate_summary_fallback_deterministic.2.2.2.1 0.9 (by norm_num)⟩

/-- Claim C5 counterexample: an entry missing only the `id` key is not
dropped — it passes validation and appears in the unique output; and when
two such entries collide on a criterion the whole detection call fails
(the `KeyError`, modelled by `none`), contradicting both parts of the
claim. -/
theorem detect_duplicates_missing_id_counterexample :
    detect_duplicates
      [⟨none, some "N", some "x@y.com", "", some "txt", "manual"⟩] =
      some ([⟨none, some "N", some "x@y.com", "", some "txt", "manual"⟩], []) ∧
    detect_duplicates
      [⟨none, some "N", some "x@y.com", "", some "txt", "manual"⟩,
       ⟨none, some "M", some "x@y.com", "", some "other", "manual"⟩] =
      none := by
  decide

/-- Claim C5 (amended): the structural validity filter of
`detect_duplicates` checks only the `name`, `email` and `text` keys (the
`id` key is not validated); entries failing that check are silently
dropped — removing them from the input does not change the result at
all — while an entry missing only `id` passes the filter. -/
theorem detect_duplicates_drops_invalid (cands : List Candidate) :
    detect_duplicates cands =
      detect_duplicates (cands.filter valid_candidate) ∧
    ∀ c : Candidate, c.name?.isSome = true → c.email?.isSome = true →
      c.text?.isSome = true → valid_candidate c = true := by
  have hidem : (cands.filter valid_candidate).filter valid_candidate =
      cands.filter valid_candidate := by
    rw [List.filter_filter]
    apply List.filter_congr
    intro c _
    rw [Bool.and_self]
  constructor
  · by_cases h1 : cands.isEmpty = true
    · have hnil : cands = [] := List.isEmpty_iff.mp h1
      subst hnil
      rfl
    · simp only [detect_duplicates, hidem]
      rw [if_neg h1]
      by_cases h2 : (cands.filter valid_candidate).isEmpty = true
      · rw [if_pos h2, if_pos h2]
      · rw [if_neg h2, if_neg h2]
  · intro c h1 h2 h3
    rw [valid_candidate, h1, h2, h3]
    rfl

/-- Witness for C5: dropping the invalid entries of a concrete list does
not change the detector output, and a concrete entry with `name`, `email`
and `text` but no `id` is valid. -/
theorem detect_duplicates_drops_invalid_witness :
    (detect_duplicates
        [⟨some "A", some "Ann", some "a@a.com", "", some "text a", "file"⟩,
         ⟨some "X", none, none, "", none, "file"⟩] =
      detect_duplicates
        (([⟨some "A", some "Ann", some "a@a.com", "", some "text a", "file"⟩,
           ⟨some "X", none, none, "", none, "file"⟩] :
            List Candidate).filter valid_candidate)) ∧
    ((⟨none, some "N", some "x@y.com", "", some "txt", "manual"⟩ :
        Candidate).name?.isSome = true ∧
      valid_candidate ⟨none, some "N", some "x@y.com", "", some "txt", "manual"⟩
        = true) :=
  ⟨(detect_duplicates_drops_invalid _).1,
    by decide,
    (detect_duplicates_drops_invalid []).2
      ⟨none, some "N", some "x@y.com", "", some "txt", "manual"⟩
      (by decide) (by decide) (by decide)⟩

/-- Claim C2 counterexample: the record for candidate `C` cites candidate
`B` as the kept candidate of the content group, but `B` itself was
removed by the email criterion, so the cited candidate is not present in
the unique output. -/
theorem detect_duplicates_cited_removed_counterexample :
    detect_duplicates
      [⟨some "A", some "N0", some "a@a.com", "", some "t zero", "file"⟩,
       ⟨some "B", some "N1", some "a@a.com", "", some "same text", "file"⟩,
       ⟨some "C", some "N2", some "b@b.com", "", some "same text", "file"⟩] =
      some ([⟨some "A", some "N0", some "a@a.com", "", some "t zero", "file"⟩],
        [⟨"email_duplicate", "B", "N1", "a@a.com",
          "Duplicate email with candidate A"⟩,
         ⟨"content_duplicate", "C", "N2", "b@b.com",
          "Duplicate content with candidate B"⟩]) ∧
    some "B" ∉
      ([⟨some "A", some "N0", some "a@a.com", "", some "t zero", "file"⟩] :
        List Candidate).map (fun c => c.id?) := by
  decide

/-- Claim C2 (amended): every duplicate record reports a valid candidate
`j` and cites the id of the lowest-index valid candidate sharing the key
of the record criterion with `j` — the head of the group, which that
criterion keeps.  (The cited candidate may itself have been removed by an
earlier criterion, so it need not appear in the unique output.) -/
theorem detect_duplicates_record_cites_group_head
    (cands : List Candidate) (uniq : List Candidate) (recs : List DupRecord)
    (h : detect_duplicates cands = some (uniq, recs)) :
    ∀ r ∈ recs, ∃ (key : Candidate → String) (kindWord : String) (j : Nat),
      ((key = email_key ∧ kindWord = "email" ∧ r.type = "email_duplicate") ∨
       (key = content_key ∧ kindWord = "content" ∧
         r.type = "content_duplicate") ∨
       (key = name_email_key ∧ kindWord = "name+email" ∧
         r.type = "name_email_duplicate")) ∧
      j < (cands.filter valid_candidate).length ∧
      first_mate key (cands.filter valid_candidate) j < j ∧
      key_at key (cands.filter valid_candidate)
          (first_mate key (cands.filter valid_candidate) j) =
        key_at key (cands.filter valid_candidate) j ∧
      (∀ i, i < first_mate key (cands.filter valid_candidate) j →
        key_at key (cands.filter valid_candidate) i ≠
          key_at key (cands.filter valid_candidate) j) ∧
      ((cands.filter valid_candidate).getD j default).id? =
        some r.candidate_id ∧
      ∃ keptId,
        ((cands.filter valid_candidate).getD
          (first_mate key (cands.filter valid_candidate) j) default).id? =
          some keptId ∧
        r.reason = "Duplicate " ++ kindWord ++ " with candidate " ++ keptId := by
  intro r hr
  obtain ⟨D, hD, huniq, origins, hnod, hcompl, hf⟩ :=
    detect_duplicates_spec cands uniq recs h
  obtain ⟨j, hjo, hspec⟩ := forall₂_mem_right hf hr
  obtain ⟨hjlt, hcase⟩ := hspec
  rcases hcase with ⟨hcE, hmk⟩ | ⟨-, hcC, hmk⟩ | ⟨-, -, hcN, hmk⟩
  · obtain ⟨cid, kid, hcid, hkid, hreq⟩ := mk_dup_record_some hmk
    refine ⟨email_key, "email", j, Or.inl ⟨rfl, rfl, by rw [hreq]⟩, hjlt,
      first_mate_lt_of_caught email_key sentinel_ok _ j hcE,
      (first_mate_spec email_key _ j hjlt).2.2.1,
      (first_mate_spec email_key _ j hjlt).2.2.2,
      by rw [hreq]; exact hcid,
      kid, hkid, by rw [hreq]⟩
  · obtain ⟨cid, kid, hcid, hkid, hreq⟩ := mk_dup_record_some hmk
    refine ⟨content_key, "content", j, Or.inr (Or.inl ⟨rfl, rfl, by rw [hreq]⟩),
      hjlt,
      first_mate_lt_of_caught content_key (fun _ => true) _ j hcC,
      (first_mate_spec content_key _ j hjlt).2.2.1,
      (first_mate_spec content_key _ j hjlt).2.2.2,
      by rw [hreq]; exact hcid,
      kid, hkid, by rw [hreq]⟩
  · obtain ⟨cid, kid, hcid, hkid, hreq⟩ := mk_dup_record_some hmk
    refine ⟨name_email_key, "name+email", j,
      Or.inr (Or.inr ⟨rfl, rfl, by rw [hreq]⟩), hjlt,
      first_mate_lt_of_caught name_email_key (fun _ => true) _ j hcN,
      (first_mate_spec name_email_key _ j hjlt).2.2.1,
      (first_mate_spec name_email_key _ j hjlt).2.2.2,
      by rw [hreq]; exact hcid,
      kid, hkid, by rw [hreq]⟩

/-- Witness for C2 at a concrete duplicate pair. -/
theorem detect_duplicates_record_cites_group_head_witness :
    (detect_duplicates [c2wA, c2wB] = some ([c2wA], [c2wR]) ∧
      c2wR ∈ [c2wR]) ∧
    (∃ (key : Candidate → String) (kindWord : String) (j : Nat),
      ((key = email_key ∧ kindWord = "email" ∧
          c2wR.type = "email_duplicate") ∨
       (key = content_key ∧ kindWord = "content" ∧
         c2wR.type = "content_duplicate") ∨
       (key = name_email_key ∧ kindWord = "name+email" ∧
         c2wR.type = "name_email_duplicate")) ∧
      j < ([c2wA, c2wB].filter valid_candidate).length ∧
      first_mate key ([c2wA, c2wB].filter valid_candidate) j < j ∧
      key_at key ([c2wA, c2wB].filter valid_candidate)
          (first_mate key ([c2wA, c2wB].filter valid_candidate) j) =
        key_at key ([c2wA, c2wB].filter valid_candidate) j ∧
      (∀ i, i < first_mate key ([c2wA, c2wB].filter valid_candidate) j →
        key_at key ([c2wA, c2wB].filter valid_candidate) i ≠
          key_at key ([c2wA, c2wB].filter valid_candidate) j) ∧
      (([c2wA, c2wB].filter valid_candidate).getD j default).id? =
        some c2wR.candidate_id ∧
      ∃ keptId,
        (([c2wA, c2wB].filter valid_candidate).getD
          (first_mate key ([c2wA, c2wB].filter valid_candidate) j)
          default).id? = some keptId ∧
        c2wR.reason = "Duplicate " ++ kindWord ++ " with candidate " ++
          keptId) :=
  ⟨⟨by decide, by decide⟩,
    detect_duplicates_record_cites_group_head [c2wA, c2wB] [c2wA] [c2wR]
      (by decide) c2wR (by decide)⟩

/-- Claim C3: under the documented caller contract that candidate ids are
pairwise distinct, no candidate id appears more than once in the
duplicate report, and every record is tagged with the first criterion
that caught its candidate under the fixed precedence email, then content
hash, then name+email. -/
theorem detect_duplicates_report_once_first_criterion
    (cands : List Candidate) (uniq : List Candidate) (recs : List DupRecord)
    (h : detect_duplicates cands = some (uniq, recs))
    (hids : ((cands.filter valid_candidate).map (fun c => c.id?)).Pairwise
      (· ≠ ·)) :
    (∀ x : String, recs.countP (fun r => r.candidate_id = x) ≤ 1) ∧
    ∀ r ∈ recs, ∃ j, j < (cands.filter valid_candidate).length ∧
      ((cands.filter valid_candidate).getD j default).id? =
        some r.candidate_id ∧
      r.type = first_criterion (cands.filter valid_candidate) j := by
  obtain ⟨D, hD, huniq, origins, hnod, hcompl, hf⟩ :=
    detect_duplicates_spec cands uniq recs h
  have hidx := pairwise_ids_ne _ hids
  have hgetid : ∀ j r, record_spec (cands.filter valid_candidate) j r →
      ((cands.filter valid_candidate).getD j default).id? =
        some r.candidate_id := by
    intro j r hrel
    obtain ⟨-, hc⟩ := hrel
    rcases hc with ⟨-, hmk⟩ | ⟨-, -, hmk⟩ | ⟨-, -, -, hmk⟩ <;>
    · obtain ⟨cid, kid, hcid, -, hreq⟩ := mk_dup_record_some hmk
      rw [hreq]
      exact hcid
  constructor
  · intro x
    apply countP_le_one_of_pairwise
    have hpw : recs.Pairwise (fun r1 r2 =>
        r1.candidate_id ≠ r2.candidate_id) := by
      refine forall₂_pairwise hf hnod ?_
      intro j1 r1 j2 r2 hrel1 hrel2 hne hEq
      exact hidx j1 j2 hrel1.1 hrel2.1 hne
        (by rw [hgetid j1 r1 hrel1, hgetid j2 r2 hrel2, hEq])
    refine hpw.imp ?_
    intro r1 r2 hne hcon
    obtain ⟨hp1, hp2⟩ := hcon
    rw [decide_eq_true_eq] at hp1 hp2
    exact hne (hp1.trans hp2.symm)
  · intro r hr
    obtain ⟨j, hjo, hspec⟩ := forall₂_mem_right hf hr
    refine ⟨j, hspec.1, hgetid j r hspec, ?_⟩
    obtain ⟨-, hc⟩ := hspec
    rcases hc with ⟨hcE, hmk⟩ | ⟨hE, hcC, hmk⟩ | ⟨hE, hC, hcN, hmk⟩
    · obtain ⟨cid, kid, -, -, hreq⟩ := mk_dup_record_some hmk
      rw [hreq, first_criterion, if_pos hcE]
    · obtain ⟨cid, kid, -, -, hreq⟩ := mk_dup_record_some hmk
      rw [hreq, first_criterion, if_neg (by rw [hE]; exact Bool.false_ne_true),
        if_pos hcC]
    · obtain ⟨cid, kid, -, -, hreq⟩ := mk_dup_record_some hmk
      rw [hreq, first_criterion, if_neg (by rw [hE]; exact Bool.false_ne_true),
        if_neg (by rw [hC]; exact Bool.false_ne_true)]

/-- Witness for C3 at a concrete duplicate pair with distinct ids. -/
theorem detect_duplicates_report_once_first_criterion_witness :
    (detect_duplicates [c3wA, c3wB] =
        some ([c3wA],
          [⟨"email_duplicate", "B", "Ben", "a@a.com",
            "Duplicate email with candidate A"⟩]) ∧
      (([c3wA, c3wB].filter valid_candidate).map
        (fun c => c.id?)).Pairwise (· ≠ ·)) ∧
    ((∀ x : String,
        ([⟨"email_duplicate", "B", "Ben", "a@a.com",
          "Duplicate email with candidate A"⟩] :
            List DupRecord).countP (fun r => r.candidate_id = x) ≤ 1) ∧
      ∀ r ∈ ([⟨"email_duplicate", "B", "Ben", "a@a.com",
          "Duplicate email with candidate A"⟩] : List DupRecord),
        ∃ j, j < ([c3wA, c3wB].filter valid_candidate).length ∧
          (([c3wA, c3wB].filter valid_candidate).getD j default).id? =
            some r.candidate_id ∧
          r.type = first_criterion ([c3wA, c3wB].filter valid_candidate) j) :=
  ⟨⟨by decide, by decide⟩,
    detect_duplicates_report_once_first_criterion [c3wA, c3wB] [c3wA]
      [⟨"email_duplicate", "B", "Ben", "a@a.com",
        "Duplicate email with candidate A"⟩] (by decide) (by decide)⟩

/-- Claim C4 counterexample: two surviving unique candidates can share
the non-empty email value "No email found" (normalized
"no email found"), because the email criterion exempts that sentinel and
the other criteria do not fire when names and texts differ. -/
theorem detect_duplicates_sentinel_email_counterexample :
    detect_duplicates
      [⟨some "A", some "Alice", some "No email found", "", some "text one",
        "file"⟩,
       ⟨some "B", some "Bob", some "no email found", "", some "text two",
        "file"⟩] =
      some ([⟨some "A", some "Alice", some "No email found", "",
          some "text one", "file"⟩,
        ⟨some "B", some "Bob", some "no email found", "", some "text two",
          "file"⟩], []) ∧
    email_key ⟨some "A", some "Alice", some "No email found", "",
        some "text one", "file"⟩ =
      email_key ⟨some "B", some "Bob", some "no email found", "",
        some "text two", "file"⟩ ∧
    email_key ⟨some "A", some "Alice", some "No email found", "",
        some "text one", "file"⟩ = "no email found" ∧
    ("no email found" : String) ≠ "" := by
  decide

/-- Claim C4 (amended): among the unique candidates returned by the
detector, no two share a non-sentinel email key (the sentinels are ""
and "no email found"), no two share a content hash, and no two share a
name+email key.  (Two unique candidates can share a sentinel email.) -/
theorem detect_duplicates_unique_pairwise
    (cands : List Candidate) (uniq : List Candidate) (recs : List DupRecord)
    (h : detect_duplicates cands = some (uniq, recs)) :
    uniq.Pairwise (fun a b =>
      (sentinel_ok (email_key a) = true → email_key a ≠ email_key b) ∧
      content_key a ≠ content_key b ∧
      name_email_key a ≠ name_email_key b) := by
  obtain ⟨D, hD, huniq, -⟩ := detect_duplicates_spec cands uniq recs h
  subst huniq
  rw [List.pairwise_map]
  refine List.Pairwise.imp_of_mem ?_
    (List.Pairwise.filter _ (enum_pairwise_struct (cands.filter
      valid_candidate)))
  intro p q hp hq hS
  obtain ⟨hij, hjlt, hpv, hqv⟩ := hS
  have hqD : D.contains q.1 = false := by
    have := (List.mem_filter.mp hq).2
    rw [Bool.not_eq_true'] at this
    exact this
  have hcontra : ∀ (key : Candidate → String) (keyOk : String → Bool),
      keyOk (key q.2) = true → key p.2 = key q.2 →
      caught_by key keyOk (cands.filter valid_candidate) q.1 = true := by
    intro key keyOk hOk hEq
    rw [caught_by_iff]
    refine ⟨hjlt, ?_, p.1, hij, ?_⟩
    · rw [key_at, ← hqv]
      exact hOk
    · rw [key_at, key_at, ← hqv, ← hpv]
      exact hEq
  refine ⟨?_, ?_, ?_⟩
  · intro hOk hEq
    have hc : caught_email (cands.filter valid_candidate) q.1 = true := by
      rw [caught_email]
      exact hcontra email_key sentinel_ok (by rw [← hEq]; exact hOk) hEq
    have := (hD q.1).mpr (Or.inl hc)
    rw [hqD] at this
    cases this
  · intro hEq
    have hc : caught_content (cands.filter valid_candidate) q.1 = true := by
      rw [caught_content]
      exact hcontra content_key (fun _ => true) rfl hEq
    have := (hD q.1).mpr (Or.inr (Or.inl hc))
    rw [hqD] at this
    cases this
  · intro hEq
    have hc : caught_ne (cands.filter valid_candidate) q.1 = true := by
      rw [caught_ne]
      exact hcontra name_email_key (fun _ => true) rfl hEq
    have := (hD q.1).mpr (Or.inr (Or.inr hc))
    rw [hqD] at this
    cases this

/-- Witness for C4 at a concrete two-candidate list. -/
theorem detect_duplicates_unique_pairwise_witness :
    detect_duplicates [c4wA, c4wB] = some ([c4wA, c4wB], []) ∧
    ([c4wA, c4wB] : List Candidate).Pairwise (fun a b =>
      (sentinel_ok (email_key a) = true → email_key a ≠ email_key b) ∧
      content_key a ≠ content_key b ∧
      name_email_key a ≠ name_email_key b) :=
  ⟨by decide,
    detect_duplicates_unique_pairwise [c4wA, c4wB] [c4wA, c4wB] []
      (by decide)⟩

/-- Claim C10 counterexample: `c10A` and `c10C` both carry the
extraction-fallback name and email and have entirely different texts,
yet `c10C` is removed as a `content_duplicate` (its text matches the
unrelated `c10B`), not as a `name_email_duplicate`. -/
theorem detect_duplicates_fallback_pair_counterexample :
    detect_duplicates [c10A, c10B, c10C] =
      some ([c10A, c10B],
        [⟨"content_duplicate", "C", "Unknown Candidate", "No email found",
          "Duplicate content with candidate B"⟩]) ∧
    name_email_key c10A = name_email_key c10C ∧
    c10A.text? ≠ c10C.text? := by
  decide

/-- Claim C10 (amended): two valid candidates that both carry the
extraction-fallback values name "Unknown Candidate" and email
"No email found" are grouped under the same name+email key (the key
applies no sentinel exclusion), and sentinel emails are exempt from the
email criterion; the later of each such pair is caught by the name+email
criterion and never appears in the unique output, and when no earlier
candidate shares its content hash its duplicate record is tagged
`name_email_duplicate` (otherwise the content criterion tags it
first). -/
theorem detect_duplicates_fallback_pair_removed
    (cands : List Candidate) (uniq : List Candidate) (recs : List DupRecord)
    (h : detect_duplicates cands = some (uniq, recs))
    (hids : ((cands.filter valid_candidate).map (fun c => c.id?)).Pairwise
      (· ≠ ·))
    (i j : Nat) (hij : i < j)
    (hj : j < (cands.filter valid_candidate).length)
    (hni : ((cands.filter valid_candidate).getD i default).name? =
      some "Unknown Candidate")
    (hnj : ((cands.filter valid_candidate).getD j default).name? =
      some "Unknown Candidate")
    (hei : ((cands.filter valid_candidate).getD i default).email? =
      some "No email found")
    (hej : ((cands.filter valid_candidate).getD j default).email? =
      some "No email found") :
    name_email_key ((cands.filter valid_candidate).getD i default) =
      name_email_key ((cands.filter valid_candidate).getD j default) ∧
    caught_email (cands.filter valid_candidate) j = false ∧
    caught_ne (cands.filter valid_candidate) j = true ∧
    (∀ c ∈ uniq, c.id? ≠
      ((cands.filter valid_candidate).getD j default).id?) ∧
    (caught_content (cands.filter valid_candidate) j = false →
      ∃ r ∈ recs, r.type = "name_email_duplicate" ∧
        ((cands.filter valid_candidate).getD j default).id? =
          some r.candidate_id) := by
  obtain ⟨D, hD, huniq, origins, hnod, hcompl, hf⟩ :=
    detect_duplicates_spec cands uniq recs h
  have hidx := pairwise_ids_ne _ hids
  have hkeyeq : name_email_key ((cands.filter valid_candidate).getD i default)
      = name_email_key ((cands.filter valid_candidate).getD j default) := by
    rw [name_email_key, name_email_key, email_key, email_key, hni, hnj, hei,
      hej]
  have hsent : sentinel_ok
      (key_at email_key (cands.filter valid_candidate) j) = false := by
    rw [key_at, email_key, hej]
    decide
  have hcEf : caught_email (cands.filter valid_candidate) j = false := by
    rw [caught_email, caught_by, hsent]
    simp
  have hcNt : caught_ne (cands.filter valid_candidate) j = true := by
    rw [caught_ne, caught_by_iff]
    refine ⟨hj, rfl, i, hij, ?_⟩
    rw [key_at, key_at]
    exact hkeyeq
  have hjD : D.contains j = true := (hD j).mpr (Or.inr (Or.inr hcNt))
  refine ⟨hkeyeq, hcEf, hcNt, ?_, ?_⟩
  · intro c hc hEq
    rw [huniq] at hc
    obtain ⟨p, hpf, hpc⟩ := List.mem_map.mp hc
    obtain ⟨hpe, hpD⟩ := List.mem_filter.mp hpf
    obtain ⟨n, hn, hnp⟩ := List.mem_iff_getElem.mp hpe
    rw [List.getElem_enum] at hnp
    have hn' : n < (cands.filter valid_candidate).length := by simpa using hn
    have hp1 : p.1 = n := by rw [← hnp]
    have hp2 : p.2 = (cands.filter valid_candidate).getD n default := by
      rw [← hnp, List.getD_eq_getElem _ _ hn']
    by_cases hnj' : n = j
    · rw [hp1, hnj'] at hpD
      rw [hjD] at hpD
      cases hpD
    · refine hidx n j hn' hj hnj' ?_
      rw [← hp2, hpc]
      exact hEq
  · intro hC
    have hjor : j ∈ origins := hcompl j hjD
    obtain ⟨r, hrrecs, hspec⟩ := forall₂_mem_left hf hjor
    obtain ⟨-, hcase⟩ := hspec
    rcases hcase with ⟨hcE, -⟩ | ⟨-, hcC, -⟩ | ⟨-, -, -, hmk⟩
    · rw [hcEf] at hcE
      cases hcE
    · rw [hC] at hcC
      cases hcC
    · obtain ⟨cid, kid, hcid, -, hreq⟩ := mk_dup_record_some hmk
      refine ⟨r, hrrecs, by rw [hreq], ?_⟩
      rw [hreq]
      exact hcid

/-- Witness for C10 at a concrete fallback-valued pair. -/
theorem detect_duplicates_fallback_pair_removed_witness :
    (detect_duplicates [c10wA, c10wB] =
        some ([c10wA],
          [⟨"name_email_duplicate", "B", "Unknown Candidate",
            "No email found", "Duplicate name+email with candidate A"⟩]) ∧
      (0 : Nat) < 1 ∧
      1 < ([c10wA, c10wB].filter valid_candidate).length ∧
      (([c10wA, c10wB].filter valid_candidate).getD 1 default).name? =
        some "Unknown Candidate") ∧
    (name_email_key (([c10wA, c10wB].filter valid_candidate).getD 0 default)
        = name_email_key
          (([c10wA, c10wB].filter valid_candidate).getD 1 default) ∧
      caught_email ([c10wA, c10wB].filter valid_candidate) 1 = false ∧
      caught_ne ([c10wA, c10wB].filter valid_candidate) 1 = true ∧
      (∀ c ∈ [c10wA], c.id? ≠
        (([c10wA, c10wB].filter valid_candidate).getD 1 default).id?) ∧
      (caught_content ([c10wA, c10wB].filter valid_candidate) 1 = false →
        ∃ r ∈ [(⟨"name_email_duplicate", "B", "Unknown Candidate",
            "No email found", "Duplicate name+email with candidate A"⟩ :
            DupRecord)], r.type = "name_email_duplicate" ∧
          (([c10wA, c10wB].filter valid_candidate).getD 1 default).id? =
            some r.candidate_id)) :=
  ⟨⟨by decide, by decide, by decide, by decide⟩,
    detect_duplicates_fallback_pair_removed [c10wA, c10wB] [c10wA]
      [⟨"name_email_duplicate", "B", "Unknown Candidate", "No email found",
        "Duplicate name+email with candidate A"⟩]
      (by decide) (by decide) 0 1 (by decide) (by decide) (by decide)
      (by decide) (by decide) (by decide)⟩

/-- Claim C8: in the assembled result, the rank of the row at position
`i` is `i + 1`, each of the first `min(5, N)` ranked rows has its summary
produced by the summarizer on that row text and stored score, and every
row ranked 6th or lower keeps the empty summary string. -/
theorem assemble_results_top5_summaries (summarize : String → ℚ → String)
    (uniqueCands : List Candidate) (scores : List ℚ) (i : Nat)
    (h : i < (assemble_results summarize uniqueCands scores).length) :
    ((assemble_results summarize uniqueCands scores).getD i default).rank =
      i + 1 ∧
    (i < 5 →
      ((assemble_results summarize uniqueCands scores).getD i
          default).summary =
        summarize
          ((assemble_results summarize uniqueCands scores).getD i
            default).text
          ((assemble_results summarize uniqueCands scores).getD i
            default).score) ∧
    (5 ≤ i →
      ((assemble_results summarize uniqueCands scores).getD i
        default).summary = "") := by
  obtain ⟨h', hrank, hscore, hstatus, htext, hcid, hsum⟩ :=
    assemble_results_fields summarize uniqueCands scores i h
  refine ⟨hrank, ?_, ?_⟩
  · intro h5
    rw [hsum, if_pos h5, htext, hscore]
  · intro h5
    rw [hsum, if_neg (by omega)]
    obtain ⟨cz, hczm, h1, h2, h3, h4, h5', h6⟩ :=
      mem_sort_rows uniqueCands scores _ (List.getElem_mem h')
    exact h6

/-- Witness for C8 at a single-candidate input. -/
theorem assemble_results_top5_summaries_witness :
    0 < (assemble_results (fun _ _ => "S") [c8w] [(1/2 : ℚ)]).length ∧
    (((assemble_results (fun _ _ => "S") [c8w] [(1/2 : ℚ)]).getD 0
        default).rank = 0 + 1 ∧
      (0 < 5 →
        ((assemble_results (fun _ _ => "S") [c8w] [(1/2 : ℚ)]).getD 0
            default).summary =
          (fun _ _ => "S")
            ((assemble_results (fun _ _ => "S") [c8w] [(1/2 : ℚ)]).getD 0
              default).text
            ((assemble_results (fun _ _ => "S") [c8w] [(1/2 : ℚ)]).getD 0
              default).score) ∧
      (5 ≤ 0 →
        ((assemble_results (fun _ _ => "S") [c8w] [(1/2 : ℚ)]).getD 0
          default).summary = "")) := by
  have hlen : 0 < (assemble_results (fun _ _ => "S") [c8w]
      [(1/2 : ℚ)]).length := by
    rw [assemble_results_length]
    simp
  exact ⟨hlen,
    assemble_results_top5_summaries (fun _ _ => "S") [c8w] [(1/2 : ℚ)] 0 hlen⟩

/-- Claim C9 counterexample: raw scores 0.12346 and 0.12344 differ by
less than 5e-5 yet round to different 4-decimal values, so the rows built
for them carry different stored scores — the sort key of the assembler —
and are not tied. -/
theorem roundTo4_close_scores_not_tied_counterexample :
    (0.12346 : ℚ) - 0.12344 < 5 / 100000 ∧
    (mk_row 0 c9cA 0.12346).score ≠ (mk_row 1 c9cB 0.12344).score := by
  constructor
  · norm_num
  · show roundTo4 0.12346 ≠ roundTo4 0.12344
    norm_num [roundTo4, roundHalfEven]

/-- Claim C9 (amended): the assembler sorts and ranks rows by the stored
similarity score, which is the raw score rounded to 4 decimal places,
while the status is classified from the unrounded raw score; two raw
scores that round to the same 4-decimal value produce equal sort keys (a
tie); and a displayed score can sit in a different tier than the row
status: raw 0.79996 is stored as 0.8 with status Good Match although a
score of 0.8 classifies as Excellent Match. -/
theorem assemble_results_rounded_key_raw_status
    (summarize : String → ℚ → String) (uniqueCands : List Candidate)
    (scores : List ℚ) :
    ((assemble_results summarize uniqueCands scores).Pairwise
      (fun a b => b.score ≤ a.score)) ∧
    (∀ r ∈ assemble_results summarize uniqueCands scores,
      ∃ cz ∈ uniqueCands.zip scores,
        r.score = roundTo4 cz.2 ∧ r.status = (classify_status cz.2).1) ∧
    (∀ (s₁ s₂ : ℚ) (i₁ i₂ : Nat) (c₁ c₂ : Candidate),
      roundTo4 s₁ = roundTo4 s₂ →
      (mk_row i₁ c₁ s₁).score = (mk_row i₂ c₂ s₂).score) ∧
    roundTo4 0.79996 = 0.8 ∧
    (classify_status 0.79996).1 = "Good Match" ∧
    (classify_status 0.8).1 = "Excellent Match" := by
  refine ⟨?_, ?_, ?_, by norm_num [roundTo4, roundHalfEven],
    by norm_num [classify_status], by norm_num [classify_status]⟩
  · rw [List.pairwise_iff_getElem]
    intro i j hi hj hij
    obtain ⟨hi', -, hiscore, -, -, -, -⟩ :=
      assemble_results_fields summarize uniqueCands scores i hi
    obtain ⟨hj', -, hjscore, -, -, -, -⟩ :=
      assemble_results_fields summarize uniqueCands scores j hj
    rw [List.getD_eq_getElem _ _ hi] at hiscore
    rw [List.getD_eq_getElem _ _ hj] at hjscore
    rw [hiscore, hjscore]
    exact (List.pairwise_iff_getElem.mp
      (sort_rows_sorted (build_rows uniqueCands scores))) i j hi' hj' hij
  · intro r hr
    obtain ⟨i, hi, hir⟩ := List.mem_iff_getElem.mp hr
    obtain ⟨hi', -, hiscore, histatus, -, -, -⟩ :=
      assemble_results_fields summarize uniqueCands scores i hi
    rw [List.getD_eq_getElem _ _ hi, hir] at hiscore histatus
    obtain ⟨cz, hczm, h1, h2, -, -, -, -⟩ :=
      mem_sort_rows uniqueCands scores _ (List.getElem_mem hi')
    exact ⟨cz, hczm, by rw [hiscore, h1], by rw [histatus, h2]⟩
  · intro s₁ s₂ i₁ i₂ c₁ c₂ hr
    show roundTo4 s₁ = roundTo4 s₂
    exact hr

/-- Witness for C9 at a single-candidate input. -/
theorem assemble_results_rounded_key_raw_status_witness :
    (0 < (assemble_results (fun _ _ => "S") [c9w] [(3/4 : ℚ)]).length) ∧
    (∃ cz ∈ [c9w].zip [(3/4 : ℚ)],
      ((assemble_results (fun _ _ => "S") [c9w] [(3/4 : ℚ)]).getD 0
          default).score = roundTo4 cz.2 ∧
      ((assemble_results (fun _ _ => "S") [c9w] [(3/4 : ℚ)]).getD 0
          default).status = (classify_status cz.2).1) := by
  have hlen : 0 < (assemble_results (fun _ _ => "S") [c9w]
      [(3/4 : ℚ)]).length := by
    rw [assemble_results_length]
    simp
  refine ⟨hlen, ?_⟩
  refine (assemble_results_rounded_key_raw_status (fun _ _ => "S") [c9w]
    [(3/4 : ℚ)]).2.1 _ ?_
  rw [List.getD_eq_getElem _ _ hlen]
  exact List.getElem_mem hlen

end CandidateRec
